import Mathlib

/-!
Shallow embedding of the subscription-ingestion and configuration-synthesis
core of the clashctl repository (src/src/ui/mod.rs and
src/src/config/clash_config.rs), together with theorems settling the
specification claims about it.

Conventions:
* serde_yaml::Value is embedded as the inductive type `Yaml`; a
  serde_yaml::Mapping is an order-preserving association list
  `List (Yaml × Yaml)` with IndexMap semantics (lookup finds the first
  matching key; insert replaces the value of the first matching key in
  place, else appends at the end).
* Machine integers are embedded as `Nat`/`Int`; a u16 port is a `Nat`
  checked against 65536 at its parse site.
* Byte strings are `List Nat`; text is `List Char` (`Str`), converted to
  `String` only at name boundaries.
-/

namespace Clashctl

/-- Embedding of serde_yaml::Value (floats never arise in the embedded code
paths, so numbers are integers). -/
inductive Yaml where
  | null : Yaml
  | bool (b : Bool) : Yaml
  | num (n : Int) : Yaml
  | str (s : String) : Yaml
  | seq (items : List Yaml) : Yaml
  | map (entries : List (Yaml × Yaml)) : Yaml

mutual

def yamlDecEq : (a b : Yaml) → Decidable (a = b)
  | .null, .null => isTrue rfl
  | .bool a, .bool b =>
      match decEq a b with
      | isTrue h => isTrue (by rw [h])
      | isFalse h => isFalse (by simp [h])
  | .num a, .num b =>
      match decEq a b with
      | isTrue h => isTrue (by rw [h])
      | isFalse h => isFalse (by simp [h])
  | .str a, .str b =>
      match decEq a b with
      | isTrue h => isTrue (by rw [h])
      | isFalse h => isFalse (by simp [h])
  | .seq a, .seq b =>
      match yamlListDecEq a b with
      | isTrue h => isTrue (by rw [h])
      | isFalse h => isFalse (by simp [h])
  | .map a, .map b =>
      match yamlPairsDecEq a b with
      | isTrue h => isTrue (by rw [h])
      | isFalse h => isFalse (by simp [h])
  | .null, .bool _ => isFalse nofun
  | .null, .num _ => isFalse nofun
  | .null, .str _ => isFalse nofun
  | .null, .seq _ => isFalse nofun
  | .null, .map _ => isFalse nofun
  | .bool _, .null => isFalse nofun
  | .bool _, .num _ => isFalse nofun
  | .bool _, .str _ => isFalse nofun
  | .bool _, .seq _ => isFalse nofun
  | .bool _, .map _ => isFalse nofun
  | .num _, .null => isFalse nofun
  | .num _, .bool _ => isFalse nofun
  | .num _, .str _ => isFalse nofun
  | .num _, .seq _ => isFalse nofun
  | .num _, .map _ => isFalse nofun
  | .str _, .null => isFalse nofun
  | .str _, .bool _ => isFalse nofun
  | .str _, .num _ => isFalse nofun
  | .str _, .seq _ => isFalse nofun
  | .str _, .map _ => isFalse nofun
  | .seq _, .null => isFalse nofun
  | .seq _, .bool _ => isFalse nofun
  | .seq _, .num _ => isFalse nofun
  | .seq _, .str _ => isFalse nofun
  | .seq _, .map _ => isFalse nofun
  | .map _, .null => isFalse nofun
  | .map _, .bool _ => isFalse nofun
  | .map _, .num _ => isFalse nofun
  | .map _, .str _ => isFalse nofun
  | .map _, .seq _ => isFalse nofun

def yamlListDecEq : (a b : List Yaml) → Decidable (a = b)
  | [], [] => isTrue rfl
  | [], _ :: _ => isFalse nofun
  | _ :: _, [] => isFalse nofun
  | a :: as, b :: bs =>
      match yamlDecEq a b with
      | isTrue h1 =>
          match yamlListDecEq as bs with
          | isTrue h2 => isTrue (by rw [h1, h2])
          | isFalse h2 => isFalse (by simp [h2])
      | isFalse h1 => isFalse (by simp [h1])

def yamlPairsDecEq : (a b : List (Yaml × Yaml)) → Decidable (a = b)
  | [], [] => isTrue rfl
  | [], _ :: _ => isFalse nofun
  | _ :: _, [] => isFalse nofun
  | (k1, v1) :: as, (k2, v2) :: bs =>
      match yamlDecEq k1 k2 with
      | isTrue h1 =>
          match yamlDecEq v1 v2 with
          | isTrue h2 =>
              match yamlPairsDecEq as bs with
              | isTrue h3 => isTrue (by rw [h1, h2, h3])
              | isFalse h3 => isFalse (by simp [h3])
          | isFalse h2 => isFalse (by simp [h2])
      | isFalse h1 => isFalse (by simp [h1])

end

instance : DecidableEq Yaml := yamlDecEq

/-- serde_yaml::Value::as_str: Some only for strings. -/
def Yaml.asStr : Yaml → Option String
  | .str s => some s
  | _ => none

/-- IndexMap::get — first entry whose key equals `k`. -/
def mapGet : List (Yaml × Yaml) → Yaml → Option Yaml
  | [], _ => none
  | e :: rest, k => if e.1 = k then some e.2 else mapGet rest k

/-- IndexMap::insert — replace the value of the first entry whose key equals
`k` in place, otherwise append `(k, v)` at the end. -/
def mapInsert : List (Yaml × Yaml) → Yaml → Yaml → List (Yaml × Yaml)
  | [], k, v => [(k, v)]
  | e :: rest, k, v => if e.1 = k then (k, v) :: rest else e :: mapInsert rest k v

/-- The normalized result of decoding one share link
(struct ProxySpec in src/src/ui/mod.rs). -/
structure ProxySpec where
  name : String
  map : List (Yaml × Yaml)
deriving DecidableEq

/-- proxy_specs_to_yaml in src/src/ui/mod.rs. -/
def proxySpecsToYaml (proxies : List ProxySpec) : Yaml :=
  .seq (proxies.map (fun p => .map p.map))

/-- The special pseudo-targets recognized by apply_proxies_to_config. -/
def specialTargets : List String := ["DIRECT", "REJECT", "REJECT-DROP", "PASS", "GLOBAL"]

/-- A member name is structural when it is a known group name or a special
pseudo-target (the `is_group || is_special` test in apply_proxies_to_config). -/
def isStructural (groupNames : List String) (name : String) : Bool :=
  groupNames.contains name || specialTargets.contains name

/-- group.as_mapping().and_then(get "name").and_then(as_str)
(lines 1132-1135 of src/src/ui/mod.rs). -/
def groupEntryName (g : Yaml) : Option String :=
  match g with
  | .map gm => (mapGet gm (.str "name")).bind Yaml.asStr
  | _ => none

/-- Collection of proxy-groups[*].name values
(lines 1126-1140 of src/src/ui/mod.rs). -/
def groupNamesOf (configMap : List (Yaml × Yaml)) : List String :=
  match mapGet configMap (.str "proxy-groups") with
  | some (.seq groups) => groups.filterMap groupEntryName
  | _ => []

/-- The has_proxy_entries loop: does the member list contain a string entry
that is neither a group name nor a special pseudo-target? -/
def hasProxyEntries (groupNames : List String) (items : List Yaml) : Bool :=
  items.any (fun e =>
    match e.asStr with
    | some name => !(isStructural groupNames name)
    | none => false)

/-- One step of the rebuild loops: append `name` unless already seen.  The
accumulator is (list built so far, names seen so far); the HashSet is
embedded as the membership of the second component. -/
def seenStep (acc : List String × List String) (name : String) : List String × List String :=
  if acc.2.contains name then acc else (acc.1 ++ [name], name :: acc.2)

/-- Phase 1 of the rebuild (lines 1177-1187): copy the structural string
members in order, deduplicated. -/
def rebuildPhase1 (groupNames : List String) (items : List Yaml)
    (st : List String × List String) : List String × List String :=
  items.foldl
    (fun acc e =>
      match e.asStr with
      | some name => if isStructural groupNames name then seenStep acc name else acc
      | none => acc)
    st

/-- Phase 2 of the rebuild (lines 1189-1193): append the record names,
deduplicated against the running seen set. -/
def rebuildPhase2 (recordNames : List String) (st : List String × List String) :
    List String × List String :=
  recordNames.foldl seenStep st

/-- The full member-list rebuild of apply_proxies_to_config. -/
def rebuildMembers (groupNames recordNames : List String) (items : List Yaml) :
    List String :=
  (rebuildPhase2 recordNames (rebuildPhase1 groupNames items ([], []))).1

/-- The per-group transform of apply_proxies_to_config (lines 1147-1199):
skip non-mapping groups, groups without a sequence-valued proxies key, and
groups with no leaf entry; otherwise replace the member list. -/
def transformGroup (groupNames recordNames : List String) (g : Yaml) : Yaml :=
  match g with
  | .map gm =>
      match mapGet gm (.str "proxies") with
      | some (.seq items) =>
          if hasProxyEntries groupNames items then
            .map (mapInsert gm (.str "proxies")
              (.seq ((rebuildMembers groupNames recordNames items).map Yaml.str)))
          else .map gm
      | _ => .map gm
  | _ => g

/-- The top-level mapping the merge starts from: the parse result of the
base bytes when it is a mapping, otherwise an empty mapping (lines
1109-1118; `none` stands for an unparsable base document). -/
def configMapOf (base : Option Yaml) : List (Yaml × Yaml) :=
  match base with
  | some (.map m) => m
  | _ => []

/-- apply_proxies_to_config (lines 1108-1205 of src/src/ui/mod.rs), at the
level of parsed YAML values.  The Rust function parses the base bytes
(embedded as the `Option Yaml` parse outcome) and serializes the result;
serde_yaml::to_string is a function of the value, so byte-level statements
about the output follow from value-level ones.  The Result error path is
unreachable (serialization of the constructed value cannot fail), so the
embedding is total. -/
def applyProxiesToConfig (base : Option Yaml) (proxies : List ProxySpec) : Yaml :=
  let configMap := mapInsert (configMapOf base) (.str "proxies") (proxySpecsToYaml proxies)
  let groupNames := groupNamesOf configMap
  let recordNames := proxies.map ProxySpec.name
  match mapGet configMap (.str "proxy-groups") with
  | some (.seq groups) =>
      .map (mapInsert configMap (.str "proxy-groups")
        (.seq (groups.map (transformGroup groupNames recordNames))))
  | _ => .map configMap

/-- Group names of a base document, as seen by the merge. -/
def docGroupNames (base : Option Yaml) : List String :=
  groupNamesOf (configMapOf base)

/-- Extractor: the proxy-groups sequence of a document, when present. -/
def docGroups (y : Yaml) : Option (List Yaml) :=
  match y with
  | .map m =>
      match mapGet m (.str "proxy-groups") with
      | some (.seq groups) => some groups
      | _ => none
  | _ => none

/-- Extractor: the string member list of the i-th proxy-group of a document,
when it exists and consists of strings. -/
def docGroupMembersAt (y : Yaml) (i : Nat) : Option (List String) :=
  match docGroups y with
  | some groups =>
      match groups[i]? with
      | some (.map gm) =>
          match mapGet gm (.str "proxies") with
          | some (.seq items) =>
              if items.all (fun e => e.asStr.isSome) then
                some (items.filterMap Yaml.asStr)
              else none
          | _ => none
      | _ => none
  | none => none

/-- First-occurrence deduplication (the effect of the running HashSet). -/
def dedupKeepFirst : List String → List String
  | [] => []
  | x :: xs => x :: dedupKeepFirst (xs.filter (fun y => y ≠ x))
termination_by l => l.length
decreasing_by
  simp only [List.length_cons]
  exact Nat.lt_succ_of_le (List.length_filter_le _ _)

/-- Written from the spec wording of §4.4 step 3: copy, in original order
and deduplicated, every member that is a structural group name or special
pseudo-target, then append the record names in order, deduplicated against
a single running set across both phases. -/
def specRebuildMembers (groupNames recordNames memberNames : List String) : List String :=
  dedupKeepFirst
    (memberNames.filter (fun n => isStructural groupNames n) ++ recordNames)

/-- Written from the spec wording: the per-group rewrite, skipping groups
whose member list has no name outside the structural set. -/
def specTransformGroup (groupNames recordNames : List String) (g : Yaml) : Yaml :=
  match g with
  | .map gm =>
      match mapGet gm (.str "proxies") with
      | some (.seq items) =>
          let names := items.filterMap Yaml.asStr
          if names.any (fun n => !(isStructural groupNames n)) then
            .map (mapInsert gm (.str "proxies")
              (.seq ((specRebuildMembers groupNames recordNames names).map Yaml.str)))
          else .map gm
      | _ => .map gm
  | _ => g

/-! ### Text utilities

Text is `List Char` (`Str`); bytes are `List Nat`.  The whitespace
predicate models Rust char::is_whitespace restricted to the ASCII range
(the only range the embedded inputs exercise). -/

abbrev Str := List Char

def ofString (s : String) : Str := s.data

/-- Rust char::is_whitespace, ASCII range. -/
def isWsChar (c : Char) : Bool :=
  c = ' ' || c = '\t' || c = '\n' || c = '\r' || c = '\x0b' || c = '\x0c'

/-- str::trim. -/
def trimStr (l : Str) : Str :=
  ((l.dropWhile isWsChar).reverse.dropWhile isWsChar).reverse

/-- Split on a separator character; always returns at least one part. -/
def splitOnChar (sep : Char) : Str → List Str
  | [] => [[]]
  | c :: rest =>
    if c = sep then [] :: splitOnChar sep rest
    else
      match splitOnChar sep rest with
      | [] => [[c]]
      | l :: ls => (c :: l) :: ls

/-- str::find(sep): split at the first occurrence, separator excluded. -/
def splitFirst (sep : Char) : Str → Option (Str × Str)
  | [] => none
  | c :: rest =>
    if c = sep then some ([], rest)
    else (splitFirst sep rest).map (fun p => (c :: p.1, p.2))

/-- str::rfind(sep): split at the last occurrence, separator excluded. -/
def splitLast (sep : Char) (s : Str) : Option (Str × Str) :=
  (splitFirst sep s.reverse).map (fun p => (p.2.reverse, p.1.reverse))

/-- str::contains for a substring pattern. -/
def hasSub (pat : Str) : Str → Bool
  | [] => pat.isEmpty
  | c :: rest => pat.isPrefixOf (c :: rest) || hasSub pat rest

/-- Split at the first occurrence of a multi-character pattern. -/
def splitFirstSub (pat : Str) : Str → Option (Str × Str)
  | [] => if pat = [] then some ([], []) else none
  | c :: rest =>
    if pat.isPrefixOf (c :: rest) then some ([], (c :: rest).drop pat.length)
    else (splitFirstSub pat rest).map (fun p => (c :: p.1, p.2))

/-! ### Base64 (the base64 crate's STANDARD engine, canonical padding) -/

def b64Val (c : Char) : Option Nat :=
  if 'A' ≤ c && c ≤ 'Z' then some (c.toNat - 65)
  else if 'a' ≤ c && c ≤ 'z' then some (c.toNat - 97 + 26)
  else if '0' ≤ c && c ≤ '9' then some (c.toNat - 48 + 52)
  else if c = '+' then some 62
  else if c = '/' then some 63
  else none

/-- Decode 4-character base64 chunks; padding allowed only in the final
chunk, with canonical (zero) trailing bits, matching the crate's
RequireCanonical configuration. -/
def b64Chunks : List Char → Option (List Nat)
  | [] => some []
  | a :: b :: c :: d :: rest =>
    match b64Val a, b64Val b with
    | some va, some vb =>
      if c = '=' then
        if d = '=' && rest.isEmpty && vb % 16 = 0 then some [va * 4 + vb / 16] else none
      else
        match b64Val c with
        | some vc =>
          if d = '=' then
            if rest.isEmpty && vc % 4 = 0 then
              some [va * 4 + vb / 16, vb % 16 * 16 + vc / 4]
            else none
          else
            match b64Val d with
            | some vd =>
              (b64Chunks rest).map
                (fun t => (va * 4 + vb / 16) :: (vb % 16 * 16 + vc / 4) :: (vc % 4 * 64 + vd) :: t)
            | none => none
        | none => none
    | _, _ => none
  | _ => none

/-- decode_base64 in src/src/ui/mod.rs (lines 415-424): strip whitespace,
convert the URL-safe alphabet to standard, pad to a multiple of 4 with
padding characters, then decode with the STANDARD engine. -/
def decodeBase64 (s : Str) : Option (List Nat) :=
  let n1 := s.filter (fun c => !(isWsChar c))
  let n2 := n1.map (fun c => if c = '-' then '+' else if c = '_' then '/' else c)
  let n3 := n2 ++ List.replicate ((4 - n2.length % 4) % 4) '='
  b64Chunks n3

/-! ### UTF-8 -/

/-- Standard UTF-8 encoding of one scalar value. -/
def utf8EncodeChar (c : Char) : List Nat :=
  let n := c.toNat
  if n < 0x80 then [n]
  else if n < 0x800 then [0xC0 + n / 64, 0x80 + n % 64]
  else if n < 0x10000 then [0xE0 + n / 4096, 0x80 + n / 64 % 64, 0x80 + n % 64]
  else [0xF0 + n / 262144, 0x80 + n / 4096 % 64, 0x80 + n / 64 % 64, 0x80 + n % 64]

def utf8Encode (s : Str) : List Nat := (s.map utf8EncodeChar).flatten

def isUtf8Cont (b : Nat) : Bool := 0x80 ≤ b && b ≤ 0xBF

/-- String::from_utf8 — strict UTF-8 decoding with the standard range,
overlong and surrogate checks. -/
def utf8DecodeStrict : List Nat → Option Str
  | [] => some []
  | b :: rest =>
    if b < 0x80 then (utf8DecodeStrict rest).map (Char.ofNat b :: ·)
    else if 0xC2 ≤ b && b ≤ 0xDF then
      match rest with
      | b2 :: rest2 =>
        if isUtf8Cont b2 then
          (utf8DecodeStrict rest2).map (Char.ofNat ((b - 0xC0) * 64 + (b2 - 0x80)) :: ·)
        else none
      | [] => none
    else if 0xE0 ≤ b && b ≤ 0xEF then
      match rest with
      | b2 :: b3 :: rest3 =>
        let okSecond :=
          if b = 0xE0 then 0xA0 ≤ b2 && b2 ≤ 0xBF
          else if b = 0xED then 0x80 ≤ b2 && b2 ≤ 0x9F
          else isUtf8Cont b2
        if okSecond && isUtf8Cont b3 then
          (utf8DecodeStrict rest3).map
            (Char.ofNat ((b - 0xE0) * 4096 + (b2 - 0x80) * 64 + (b3 - 0x80)) :: ·)
        else none
      | _ => none
    else if 0xF0 ≤ b && b ≤ 0xF4 then
      match rest with
      | b2 :: b3 :: b4 :: rest4 =>
        let okSecond :=
          if b = 0xF0 then 0x90 ≤ b2 && b2 ≤ 0xBF
          else if b = 0xF4 then 0x80 ≤ b2 && b2 ≤ 0x8F
          else isUtf8Cont b2
        if okSecond && isUtf8Cont b3 && isUtf8Cont b4 then
          (utf8DecodeStrict rest4).map
            (Char.ofNat ((b - 0xF0) * 262144 + (b2 - 0x80) * 4096 + (b3 - 0x80) * 64 + (b4 - 0x80)) :: ·)
        else none
      | _ => none
    else none

/-- Fuel-indexed worker for the lossy decoder; one unit of fuel is spent per
emitted character and at least one byte is consumed, so fuel = byte count
always suffices. -/
def utf8DecodeLossyAux : Nat → List Nat → Str
  | 0, _ => []
  | _ + 1, [] => []
  | fuel + 1, b :: rest =>
    if b < 0x80 then Char.ofNat b :: utf8DecodeLossyAux fuel rest
    else if 0xC2 ≤ b && b ≤ 0xDF then
      match rest with
      | b2 :: rest2 =>
        if isUtf8Cont b2 then
          Char.ofNat ((b - 0xC0) * 64 + (b2 - 0x80)) :: utf8DecodeLossyAux fuel rest2
        else '�' :: utf8DecodeLossyAux fuel rest
      | [] => ['�']
    else if 0xE0 ≤ b && b ≤ 0xEF then
      match rest with
      | b2 :: b3 :: rest3 =>
        let okSecond :=
          if b = 0xE0 then 0xA0 ≤ b2 && b2 ≤ 0xBF
          else if b = 0xED then 0x80 ≤ b2 && b2 ≤ 0x9F
          else isUtf8Cont b2
        if okSecond && isUtf8Cont b3 then
          Char.ofNat ((b - 0xE0) * 4096 + (b2 - 0x80) * 64 + (b3 - 0x80))
            :: utf8DecodeLossyAux fuel rest3
        else '�' :: utf8DecodeLossyAux fuel rest
      | _ => '�' :: utf8DecodeLossyAux fuel rest
    else if 0xF0 ≤ b && b ≤ 0xF4 then
      match rest with
      | b2 :: b3 :: b4 :: rest4 =>
        let okSecond :=
          if b = 0xF0 then 0x90 ≤ b2 && b2 ≤ 0xBF
          else if b = 0xF4 then 0x80 ≤ b2 && b2 ≤ 0x8F
          else isUtf8Cont b2
        if okSecond && isUtf8Cont b3 && isUtf8Cont b4 then
          Char.ofNat ((b - 0xF0) * 262144 + (b2 - 0x80) * 4096 + (b3 - 0x80) * 64 + (b4 - 0x80))
            :: utf8DecodeLossyAux fuel rest4
        else '�' :: utf8DecodeLossyAux fuel rest
      | _ => '�' :: utf8DecodeLossyAux fuel rest
    else '�' :: utf8DecodeLossyAux fuel rest

/-- String::from_utf8_lossy.  Modelled from the std documentation (the
function is library code, not in src/): invalid sequences become U+FFFD.
The model emits one replacement character per rejected byte, a simplification
of the maximal-subpart rule that is exact on valid input and on the
all-ASCII inputs exercised here. -/
def utf8DecodeLossy (l : List Nat) : Str := utf8DecodeLossyAux l.length l

/-! ### Percent decoding -/

def hexVal (b : Nat) : Option Nat :=
  if 48 ≤ b && b ≤ 57 then some (b - 48)
  else if 97 ≤ b && b ≤ 102 then some (b - 97 + 10)
  else if 65 ≤ b && b ≤ 70 then some (b - 65 + 10)
  else none

/-- Fuel-indexed worker for the percent-decoding byte loop. -/
def percentDecodeBytesAux : Nat → List Nat → List Nat
  | 0, _ => []
  | _ + 1, [] => []
  | fuel + 1, b :: rest =>
    if b = 37 then
      match rest with
      | hi :: lo :: rest2 =>
        match hexVal hi, hexVal lo with
        | some h, some l => (h * 16 + l) :: percentDecodeBytesAux fuel rest2
        | _, _ => b :: percentDecodeBytesAux fuel rest
      | _ => b :: percentDecodeBytesAux fuel rest
    else b :: percentDecodeBytesAux fuel rest

/-- The byte loop of percent_decode in src/src/ui/mod.rs (lines 387-413):
a %XY triplet with two hex digits becomes one byte, anything else is copied
verbatim. -/
def percentDecodeBytes (l : List Nat) : List Nat := percentDecodeBytesAux l.length l

/-- percent_decode in src/src/ui/mod.rs: decode the UTF-8 bytes, replace
valid %XY triplets, and reinterpret lossily. -/
def percentDecode (s : Str) : Str :=
  utf8DecodeLossy (percentDecodeBytes (utf8Encode s))

/-! ### Subscription extraction -/

def schemeMarker : Str := ofString "://"

/-- extract_subscription_lines in src/src/ui/mod.rs (lines 426-446):
lossily decode, trim, fall back to base64 when no "://" is visible, pick
the first candidate containing "://" (else the raw text), split into
trimmed non-empty lines. -/
def extractSubscriptionLines (bytes : List Nat) : List Str :=
  let raw := trimStr (utf8DecodeLossy bytes)
  let candidates :=
    raw :: (if hasSub schemeMarker raw then []
      else
        match decodeBase64 raw with
        | some decoded =>
          match utf8DecodeStrict decoded with
          | some s => [s]
          | none => []
        | none => [])
  let text := (candidates.find? (fun c => hasSub schemeMarker c)).getD raw
  ((splitOnChar '\n' text).map trimStr).filter (fun l => !l.isEmpty)

/-! ### Shared parsing helpers -/

/-- parse_bool in src/src/ui/mod.rs (lines 574-580). -/
def parseBool (v : Str) : Option Bool :=
  let lower := v.map Char.toLower
  if lower = ofString "1" || lower = ofString "true" || lower = ofString "yes"
      || lower = ofString "on" then some true
  else if lower = ofString "0" || lower = ofString "false" || lower = ofString "no"
      || lower = ofString "off" then some false
  else none

def isDigitChar (c : Char) : Bool := '0' ≤ c && c ≤ '9'

def digitsToNat (s : Str) : Nat := s.foldl (fun n c => n * 10 + (c.toNat - 48)) 0

/-- str::parse::<u16>: optional leading plus sign, then one or more ASCII
digits, value below 2^16. -/
def parseU16 (s : Str) : Option Nat :=
  let t := if s.head? = some '+' then s.tail else s
  if !t.isEmpty && t.all isDigitChar && digitsToNat t < 65536 then some (digitsToNat t)
  else none

/-- One form_urlencoded key/value component: '+' means space, then
percent-decoding. -/
def formUrlDecode (s : Str) : Str :=
  percentDecode (s.map (fun c => if c = '+' then ' ' else c))

/-- url::form_urlencoded::parse — split the query on '&', drop empty
segments, split each segment at the first '=', decode both sides.
Modelled from the url crate (library code, not in src/). -/
def parseQueryPairs (q : Str) : List (Str × Str) :=
  ((splitOnChar '&' q).filter (fun seg => !seg.isEmpty)).map (fun seg =>
    match splitFirst '=' seg with
    | some (k, v) => (formUrlDecode k, formUrlDecode v)
    | none => (formUrlDecode seg, []))

/-! ### Shadowsocks decoder -/

/-- The plugin-parameter loop of parse_ss_url (lines 469-488): for each
plugin key, the semicolon-separated value's first segment (when non-empty)
becomes the plugin name, the remaining segments (when present) are re-joined
as the options string. -/
def ssPluginFold (pairs : List (Str × Str)) : Option Str × Option Str :=
  pairs.foldl
    (fun acc kv =>
      if kv.1 = ofString "plugin" then
        let parts := splitOnChar ';' kv.2
        let first := parts.headI
        let rest := parts.tail
        (if !first.isEmpty then some first else acc.1,
         if !rest.isEmpty then some (List.intercalate (ofString ";") rest) else acc.2)
      else acc)
    (none, none)

/-- host:port parsing of parse_ss_url (lines 519-529): a bracketed IPv6
literal skips the byte after the closing bracket unchecked; otherwise split
at the last colon. -/
def ssHostPort (hostport : Str) : Option (Str × Nat) :=
  if hostport.head? = some '[' then
    match splitFirst ']' hostport with
    | some (before, after) =>
      match after with
      | [] => none
      | _ :: afterRest => (parseU16 afterRest).map (fun p => (before.drop 1, p))
    | none => none
  else
    match splitLast ':' hostport with
    | some (h, pstr) => (parseU16 pstr).map (fun p => (h, p))
    | none => none

/-- The method:password split of parse_ss_url (lines 508-517): literal when
a colon is visible, otherwise the userinfo is base64 and must decode to
UTF-8 containing a colon. -/
def ssCredentials (userinfo : Str) : Option (Str × Str) :=
  if userinfo.contains ':' then splitFirst ':' userinfo
  else
    match decodeBase64 userinfo with
    | some bytes =>
      match utf8DecodeStrict bytes with
      | some decoded => splitFirst ':' decoded
      | none => none
    | none => none

/-- The userinfo@hostport split of parse_ss_url (lines 490-504): split at
the last visible at-sign, with a legacy fallback where the whole segment is
base64. -/
def ssUserHost (content : Str) : Option (Str × Str) :=
  match splitLast '@' content with
  | some p => some p
  | none =>
    match decodeBase64 content with
    | some bytes =>
      match utf8DecodeStrict bytes with
      | some decoded => splitLast '@' decoded
      | none => none
    | none => none

/-- parse_ss_url in src/src/ui/mod.rs (lines 454-572). -/
def parseSsUrl (line : Str) : Option ProxySpec :=
  let line := trimStr line
  if !(ofString "ss://").isPrefixOf line then none
  else
    let content0 := line.drop 5
    let hashSplit := splitFirst '#' content0
    let content1 := match hashSplit with
      | some (l, _) => l
      | none => content0
    let name? : Option Str := match hashSplit with
      | some (_, r) => some (percentDecode r)
      | none => none
    let querySplit := splitFirst '?' content1
    let content2 := match querySplit with
      | some (l, _) => l
      | none => content1
    let pluginPair := match querySplit with
      | some (_, r) => ssPluginFold (parseQueryPairs r)
      | none => (none, none)
    match ssUserHost content2 with
    | none => none
    | some (userinfo, hostport) =>
      match ssCredentials userinfo with
      | none => none
      | some (cipher, password) =>
        match ssHostPort hostport with
        | none => none
        | some (server, port) =>
          let nameStr := (name?.getD (server ++ ofString ":" ++ ofString (toString port))).asString
          some
            { name := nameStr
              map :=
                [(.str "name", .str nameStr), (.str "type", .str "ss"),
                 (.str "server", .str server.asString), (.str "port", .num port),
                 (.str "cipher", .str cipher.asString),
                 (.str "password", .str password.asString)]
                ++ (match pluginPair.1 with
                    | some pl => [((Yaml.str "plugin"), Yaml.str pl.asString)]
                    | none => [])
                ++ (match pluginPair.2 with
                    | some opts => [((Yaml.str "plugin-opts"), Yaml.str opts.asString)]
                    | none => []) }

/-! ### VMess decoder

serde_json::Value is embedded as `Json`: string and number leaves carry the
text the Rust code extracts from them (a number carries its to_string
rendering); every other value form is `jother`, which get_str maps to
nothing, exactly like the Rust closure. -/

inductive Json where
  | jstr (s : String) : Json
  | jnum (rendering : String) : Json
  | jother : Json
deriving DecidableEq

abbrev JsonDoc := List (String × Json)

def jsonLookup : JsonDoc → String → Option Json
  | [], _ => none
  | e :: rest, k => if e.1 = k then some e.2 else jsonLookup rest k

/-- The get_str closure of parse_vmess_url (lines 587-593): strings give
their content, numbers their rendering, everything else nothing. -/
def getStr (doc : JsonDoc) (k : String) : Option String :=
  match jsonLookup doc k with
  | some (.jstr s) => some s
  | some (.jnum r) => some r
  | _ => none

/-- alpn splitting shared by the decoders: split on commas and trim each
piece (the list is never empty, matching the always-true is_empty guard). -/
def alpnList (s : String) : List Yaml :=
  ((splitOnChar ',' (ofString s)).map (fun p => Yaml.str (trimStr p).asString))

/-- The body of parse_vmess_url (lines 595-715), from the parsed JSON
payload onward. -/
def vmessFromJson (doc : JsonDoc) : Option ProxySpec :=
  match getStr doc "add" with
  | none => none
  | some server =>
    match (getStr doc "port").bind (fun s => parseU16 (ofString s)) with
    | none => none
    | some port =>
      match getStr doc "id" with
      | none => none
      | some uuid =>
        let name := ((getStr doc "ps").filter (fun s => !s.isEmpty)).getD
          (server ++ ":" ++ toString port)
        let alterId := (getStr doc "aid").bind (fun s => parseU16 (ofString s))
        let cipher := ((getStr doc "scy").filter (fun s => !s.isEmpty)).getD "auto"
        let network := (getStr doc "net").orElse (fun _ => getStr doc "network")
        let tls := (getStr doc "tls").getD ""
        let sni := (getStr doc "sni").orElse (fun _ => getStr doc "host")
        let alpn := getStr doc "alpn"
        let host := getStr doc "host"
        let path := getStr doc "path"
        let wsMap : List (Yaml × Yaml) :=
          (match path with
           | some p => [((Yaml.str "path"), Yaml.str p)]
           | none => [])
          ++ (match host with
              | some h => [((Yaml.str "headers"), Yaml.map [((Yaml.str "Host"), Yaml.str h)])]
              | none => [])
        let grpcMap : List (Yaml × Yaml) :=
          match path with
          | some p => [((Yaml.str "grpc-service-name"), Yaml.str p)]
          | none => []
        some
          { name := name
            map :=
              [(.str "name", .str name), (.str "type", .str "vmess"),
               (.str "server", .str server), (.str "port", .num port),
               (.str "uuid", .str uuid), (.str "cipher", .str cipher)]
              ++ (match alterId with
                  | some a => [((Yaml.str "alterId"), Yaml.num a)]
                  | none => [])
              ++ (match network.filter (fun n => !n.isEmpty) with
                  | some n => [((Yaml.str "network"), Yaml.str n)]
                  | none => [])
              ++ (if !tls.isEmpty && tls ≠ "none" then [((Yaml.str "tls"), Yaml.bool true)]
                  else [])
              ++ (match sni with
                  | some s => [((Yaml.str "servername"), Yaml.str s)]
                  | none => [])
              ++ (match alpn with
                  | some a =>
                    if !(alpnList a).isEmpty then [((Yaml.str "alpn"), Yaml.seq (alpnList a))]
                    else []
                  | none => [])
              ++ (if network = some "ws" then
                    if !wsMap.isEmpty then [((Yaml.str "ws-opts"), Yaml.map wsMap)] else []
                  else if network = some "grpc" then
                    if !grpcMap.isEmpty then [((Yaml.str "grpc-opts"), Yaml.map grpcMap)] else []
                  else []) }

def jsonSkipWs : Str → Str :=
  List.dropWhile (fun c => c = ' ' || c = '\t' || c = '\n' || c = '\r')

/-- Body of a JSON string literal up to the closing quote (escape sequences
rejected; none occur in the payloads exercised here). -/
def jsonTakeString : Str → Option (Str × Str)
  | [] => none
  | c :: rest =>
    if c = '"' then some ([], rest)
    else if c = '\\' then none
    else (jsonTakeString rest).map (fun p => (c :: p.1, p.2))

/-- A JSON scalar: a string literal or an integer numeral (rendered back as
serde_json renders it). -/
def jsonParseValue (s : Str) : Option (Json × Str) :=
  match jsonSkipWs s with
  | [] => none
  | c :: rest =>
    if c = '"' then (jsonTakeString rest).map (fun p => (.jstr p.1.asString, p.2))
    else if c = '-' then
      let digits := rest.takeWhile isDigitChar
      if digits.isEmpty then none
      else some (.jnum (('-' :: digits).asString), rest.drop digits.length)
    else if isDigitChar c then
      let digits := (c :: rest).takeWhile isDigitChar
      some (.jnum digits.asString, (c :: rest).drop digits.length)
    else none

/-- serde_json duplicate-key handling: a later binding replaces the earlier
one. -/
def jsonInsert (doc : JsonDoc) (k : String) (v : Json) : JsonDoc :=
  if doc.any (fun e => e.1 = k) then
    doc.map (fun e => if e.1 = k then (k, v) else e)
  else doc ++ [(k, v)]

def jsonParsePairsAux : Nat → Str → JsonDoc → Option (JsonDoc × Str)
  | 0, _, _ => none
  | fuel + 1, s, acc =>
    match jsonSkipWs s with
    | [] => none
    | c :: rest =>
      if c = '"' then
        match jsonTakeString rest with
        | none => none
        | some (key, rest2) =>
          match jsonSkipWs rest2 with
          | ':' :: rest3 =>
            match jsonParseValue rest3 with
            | none => none
            | some (v, rest4) =>
              let acc2 := jsonInsert acc key.asString v
              match jsonSkipWs rest4 with
              | ',' :: rest5 => jsonParsePairsAux fuel rest5 acc2
              | '}' :: rest6 => some (acc2, rest6)
              | _ => none
          | _ => none
      else none

/-- serde_json::from_slice, modelled from the serde_json documentation
(library code, not in src/), restricted to flat objects whose values are
string literals or integer numerals — the shape of every VMess payload this
code consumes; anything else is rejected. -/
def jsonParseFlat (bytes : List Nat) : Option JsonDoc :=
  match utf8DecodeStrict bytes with
  | none => none
  | some s =>
    match jsonSkipWs s with
    | '{' :: rest =>
      match jsonSkipWs rest with
      | '}' :: rest2 => if (jsonSkipWs rest2).isEmpty then some [] else none
      | _ =>
        match jsonParsePairsAux (rest.length + 1) rest [] with
        | some (doc, restEnd) => if (jsonSkipWs restEnd).isEmpty then some doc else none
        | none => none
    | _ => none

/-- parse_vmess_url in src/src/ui/mod.rs (lines 582-716). -/
def parseVmessUrl (line : Str) : Option ProxySpec :=
  let t := trimStr line
  if !(ofString "vmess://").isPrefixOf t then none
  else
    match decodeBase64 (t.drop 8) with
    | some bytes => (jsonParseFlat bytes).bind vmessFromJson
    | none => none

/-! ### URL-based decoders (VLess, Trojan) -/

structure UrlParts where
  scheme : Str
  username : Str
  host : Str
  port : Option Nat
  query : Option Str
  fragment : Option Str
deriving DecidableEq

/-- Url::parse, modelled from the url crate's documentation (library code,
not in src/), restricted to scheme://[userinfo@]host[:port][/…][?query]
[#fragment] with an ASCII host: the scheme and host are lowercased, the
username is the raw slice before the first colon of the userinfo, the port
must be an explicit u16 (an empty port section means no port), the query
and fragment are kept raw.  Hosts that are empty, or ports that do not
parse, fail the whole parse, as the crate does on these shapes. -/
def urlParse (s : Str) : Option UrlParts :=
  match splitFirstSub (ofString "://") s with
  | none => none
  | some (scheme, rest) =>
    if scheme.isEmpty then none
    else
      let fragSplit := splitFirst '#' rest
      let rest1 := match fragSplit with | some (l, _) => l | none => rest
      let fragment := match fragSplit with | some (_, r) => some r | none => none
      let querySplit := splitFirst '?' rest1
      let rest2 := match querySplit with | some (l, _) => l | none => rest1
      let query := match querySplit with | some (_, r) => some r | none => none
      let authority := match splitFirst '/' rest2 with | some (l, _) => l | none => rest2
      let userSplit := splitLast '@' authority
      let userinfo := match userSplit with | some (u, _) => u | none => []
      let hostport := match userSplit with | some (_, h) => h | none => authority
      let username := match splitFirst ':' userinfo with | some (u, _) => u | none => userinfo
      let hp? : Option (Str × Option Nat) :=
        if hostport.head? = some '[' then
          match splitFirst ']' hostport with
          | some (before, after) =>
            match after with
            | [] => some (before ++ [']'], none)
            | ':' :: pstr =>
              if pstr.isEmpty then some (before ++ [']'], none)
              else (parseU16 pstr).map (fun p => (before ++ [']'], some p))
            | _ => none
          | none => none
        else
          match splitLast ':' hostport with
          | some (h, pstr) =>
            if pstr.isEmpty then some (h, none)
            else (parseU16 pstr).map (fun p => (h, some p))
          | none => some (hostport, none)
      match hp? with
      | none => none
      | some (host, port) =>
        if host.isEmpty then none
        else
          some
            { scheme := scheme.map Char.toLower
              username := username
              host := host.map Char.toLower
              port := port
              query := query
              fragment := fragment }

/-- HashMap built from the query pairs: the last binding for a key wins. -/
def paramsGet (pairs : List (Str × Str)) (k : String) : Option Str :=
  ((pairs.filter (fun p => p.1 = ofString k)).map Prod.snd).getLast?

/-- The ws-opts block shared by parse_vless_url and parse_trojan_url. -/
def wsOptsOf (params : List (Str × Str)) : List (Yaml × Yaml) :=
  (match paramsGet params "path" with
   | some p => [((Yaml.str "path"), Yaml.str p.asString)]
   | none => [])
  ++ (match paramsGet params "host" with
      | some h => [((Yaml.str "headers"), Yaml.map [((Yaml.str "Host"), Yaml.str h.asString)])]
      | none => [])

/-- parse_vless_url in src/src/ui/mod.rs (lines 718-921). -/
def parseVlessUrl (line : Str) : Option ProxySpec :=
  match urlParse line with
  | none => none
  | some url =>
    if url.scheme ≠ ofString "vless" then none
    else if url.username.isEmpty then none
    else
      match url.port with
      | none => none
      | some port =>
        let server := url.host.asString
        let name := ((url.fragment.map percentDecode).filter (fun s => !s.isEmpty)).getD
          (ofString (server ++ ":" ++ toString port))
        let params := parseQueryPairs (url.query.getD [])
        let network := (paramsGet params "type").orElse (fun _ => paramsGet params "network")
        let security := (paramsGet params "security").getD (ofString "none")
        let sni := (paramsGet params "sni").orElse (fun _ => paramsGet params "peer")
        let alpn := paramsGet params "alpn"
        let flow := paramsGet params "flow"
        let encryption := paramsGet params "encryption"
        let udp := ((paramsGet params "udp").bind parseBool).getD false
        let realityMap : List (Yaml × Yaml) :=
          (match (paramsGet params "pbk").orElse (fun _ => paramsGet params "public-key") with
           | some v => [((Yaml.str "public-key"), Yaml.str v.asString)]
           | none => [])
          ++ (match (paramsGet params "sid").orElse (fun _ => paramsGet params "short-id") with
              | some v => [((Yaml.str "short-id"), Yaml.str v.asString)]
              | none => [])
          ++ (match (paramsGet params "spx").orElse (fun _ => paramsGet params "spider-x") with
              | some v => [((Yaml.str "spider-x"), Yaml.str v.asString)]
              | none => [])
          ++ (match paramsGet params "fp" with
              | some v => [((Yaml.str "fingerprint"), Yaml.str v.asString)]
              | none => [])
        let grpcMap : List (Yaml × Yaml) :=
          match ((paramsGet params "serviceName").orElse
              (fun _ => paramsGet params "service")).orElse
              (fun _ => paramsGet params "path") with
          | some v => [((Yaml.str "grpc-service-name"), Yaml.str v.asString)]
          | none => []
        some
          { name := name.asString
            map :=
              [(.str "name", .str name.asString), (.str "type", .str "vless"),
               (.str "server", .str server), (.str "port", .num port),
               (.str "uuid", .str url.username.asString), (.str "udp", .bool udp)]
              ++ (match network.filter (fun n => !n.isEmpty) with
                  | some n => [((Yaml.str "network"), Yaml.str n.asString)]
                  | none => [])
              ++ (match flow with
                  | some v => [((Yaml.str "flow"), Yaml.str v.asString)]
                  | none => [])
              ++ (match encryption with
                  | some v => [((Yaml.str "encryption"), Yaml.str v.asString)]
                  | none => [])
              ++ (if security ≠ ofString "none" then [((Yaml.str "tls"), Yaml.bool true)]
                  else [])
              ++ (match sni with
                  | some v => [((Yaml.str "servername"), Yaml.str v.asString)]
                  | none => [])
              ++ (match alpn with
                  | some a =>
                    if !(alpnList a.asString).isEmpty then
                      [((Yaml.str "alpn"), Yaml.seq (alpnList a.asString))]
                    else []
                  | none => [])
              ++ (if security = ofString "reality" then
                    if !realityMap.isEmpty then [((Yaml.str "reality-opts"), Yaml.map realityMap)]
                    else []
                  else [])
              ++ (if network = some (ofString "ws") then
                    if !(wsOptsOf params).isEmpty then
                      [((Yaml.str "ws-opts"), Yaml.map (wsOptsOf params))]
                    else []
                  else if network = some (ofString "grpc") then
                    if !grpcMap.isEmpty then [((Yaml.str "grpc-opts"), Yaml.map grpcMap)]
                    else []
                  else []) }

/-- parse_trojan_url in src/src/ui/mod.rs (lines 923-1062). -/
def parseTrojanUrl (line : Str) : Option ProxySpec :=
  match urlParse line with
  | none => none
  | some url =>
    if url.scheme ≠ ofString "trojan" then none
    else if url.username.isEmpty then none
    else
      match url.port with
      | none => none
      | some port =>
        let server := url.host.asString
        let name := ((url.fragment.map percentDecode).filter (fun s => !s.isEmpty)).getD
          (ofString (server ++ ":" ++ toString port))
        let params := parseQueryPairs (url.query.getD [])
        let network := (paramsGet params "type").orElse (fun _ => paramsGet params "network")
        let sni := (paramsGet params "sni").orElse (fun _ => paramsGet params "peer")
        let alpn := paramsGet params "alpn"
        let udp := ((paramsGet params "udp").bind parseBool).getD false
        let skipCert := (((paramsGet params "allowInsecure").orElse
          (fun _ => paramsGet params "skip-cert-verify")).bind parseBool).getD false
        let grpcMap : List (Yaml × Yaml) :=
          match paramsGet params "serviceName" with
          | some v => [((Yaml.str "grpc-service-name"), Yaml.str v.asString)]
          | none => []
        some
          { name := name.asString
            map :=
              [(.str "name", .str name.asString), (.str "type", .str "trojan"),
               (.str "server", .str server), (.str "port", .num port),
               (.str "password", .str url.username.asString), (.str "udp", .bool udp)]
              ++ (if skipCert then [((Yaml.str "skip-cert-verify"), Yaml.bool true)] else [])
              ++ (match network.filter (fun n => !n.isEmpty) with
                  | some n => [((Yaml.str "network"), Yaml.str n.asString)]
                  | none => [])
              ++ (match sni with
                  | some v => [((Yaml.str "sni"), Yaml.str v.asString)]
                  | none => [])
              ++ (match alpn with
                  | some a =>
                    if !(alpnList a.asString).isEmpty then
                      [((Yaml.str "alpn"), Yaml.seq (alpnList a.asString))]
                    else []
                  | none => [])
              ++ (if network = some (ofString "ws") then
                    if !(wsOptsOf params).isEmpty then
                      [((Yaml.str "ws-opts"), Yaml.map (wsOptsOf params))]
                    else []
                  else if network = some (ofString "grpc") then
                    if !grpcMap.isEmpty then [((Yaml.str "grpc-opts"), Yaml.map grpcMap)]
                    else []
                  else []) }

/-! ### Raw subscription pipeline -/

/-- parse_raw_subscription in src/src/ui/mod.rs (lines 1064-1084): try the
four decoders in order on every extracted line, collecting successes. -/
def parseRawSubscription (bytes : List Nat) : List ProxySpec :=
  (extractSubscriptionLines bytes).foldl
    (fun acc line =>
      match parseSsUrl line with
      | some p => acc ++ [p]
      | none =>
        match parseVmessUrl line with
        | some p => acc ++ [p]
        | none =>
          match parseVlessUrl line with
          | some p => acc ++ [p]
          | none =>
            match parseTrojanUrl line with
            | some p => acc ++ [p]
            | none => acc)
    []

/-- The decoder chain applied to one line, first success wins. -/
def decodeShareLine (line : Str) : Option ProxySpec :=
  ((parseSsUrl line).orElse (fun _ => parseVmessUrl line)).orElse
    (fun _ => (parseVlessUrl line).orElse (fun _ => parseTrojanUrl line))

/-- convert_raw_subscription_to_config in src/src/ui/mod.rs (lines
1086-1098).  The base-config file read is performed by the collaborator I/O
layer; its outcome enters here as `baseRead` (an error, or the parse result
of the bytes read).  Serialization of the merged document cannot fail, so
that error arm of the Rust function is dropped. -/
def convertRawSubscriptionToConfig (rawBytes : List Nat)
    (baseRead : Except String (Option Yaml)) : Except String (Yaml × Nat) :=
  let proxies := parseRawSubscription rawBytes
  if proxies.isEmpty then .error "Unsupported raw subscription format"
  else
    match baseRead with
    | .error e => .error ("Failed to read base config: " ++ e)
    | .ok base => .ok (applyProxiesToConfig base proxies, proxies.length)

/-! ### PathLocator content heuristic (src/src/config/clash_config.rs) -/

def markerSubstrings : List String :=
  ["proxy-providers", "proxies:", "external-controller", "mixed-port", "socks-port"]

/-- is_probable_clash_config in src/src/config/clash_config.rs (lines
235-246), on the file content (the fs::read_to_string error arm is the
collaborator's): lowercase the content and test the five marker substrings. -/
def isProbableClashConfig (content : Str) : Bool :=
  let c := content.map Char.toLower
  hasSub (ofString "proxy-providers") c || hasSub (ofString "proxies:") c
    || hasSub (ofString "external-controller") c || hasSub (ofString "mixed-port") c
    || hasSub (ofString "socks-port") c

/-- is_config_filename in src/src/config/clash_config.rs (lines 220-225). -/
def isConfigFilename (fname : String) : Bool :=
  fname = "config.yaml" || fname = "config.yml"

/-- looks_like_clash_path in src/src/config/clash_config.rs (lines 227-233). -/
def looksLikeClashPath (path : Str) : Bool :=
  let lower := path.map Char.toLower
  hasSub (ofString "clash") lower || hasSub (ofString "mihomo") lower
    || hasSub (ofString "verge") lower || hasSub (ofString "party") lower

/-- Whether one candidate file survives every filter of the scan_for_config
loop (lines 191-201): config filename, tool-name path heuristic, content
heuristic.  Directory traversal itself is collaborator I/O. -/
def scanAcceptsCandidate (path : Str) (fname : String) (content : Str) : Bool :=
  isConfigFilename fname && looksLikeClashPath path && isProbableClashConfig content

def yamlFlowStop (c : Char) : Bool :=
  c = ':' || c = ',' || c = '{' || c = '}' || c = '[' || c = ']'

def yamlFlowPairsAux : Nat → Str → List (String × String) → Option (List (String × String))
  | 0, _, _ => none
  | fuel + 1, s, acc =>
    let s1 := jsonSkipWs s
    let key := s1.takeWhile (fun c => !yamlFlowStop c)
    let rest := s1.drop key.length
    if (trimStr key).isEmpty then none
    else
      match rest with
      | ':' :: rest2 =>
        if (rest2.head?.map isWsChar).getD false then
          let afterWs := jsonSkipWs rest2
          let v := afterWs.takeWhile (fun c => c ≠ ',' && c ≠ '}')
          let rest3 := afterWs.drop v.length
          let acc2 := acc ++ [((trimStr key).asString, (trimStr v).asString)]
          match rest3 with
          | ',' :: rest4 => yamlFlowPairsAux fuel rest4 acc2
          | '}' :: rest5 => if (jsonSkipWs rest5).isEmpty then some acc2 else none
          | _ => none
        else none
      | _ => none

/-- Modelled from the spec: the YAML parsing step the spec's content
heuristic claims (serde_yaml is library code, not in src/), restricted to a
single-line flow mapping of plain scalars — enough to decide the concrete
contents used below, faithful to serde_yaml on them: serde_yaml parses a
closed flow mapping and rejects an unterminated one. -/
def yamlFlowParse (content : Str) : Option (List (String × String)) :=
  match jsonSkipWs content with
  | '{' :: rest =>
    match jsonSkipWs rest with
    | '}' :: rest2 => if (jsonSkipWs rest2).isEmpty then some [] else none
    | _ => yamlFlowPairsAux (rest.length + 1) rest []
  | _ => none

/-- The spec wording of the content heuristic: the content parses as YAML
and its top-level mapping contains at least one marker key. -/
def specContentHeuristic (content : Str) : Bool :=
  match yamlFlowParse content with
  | some kvs =>
    kvs.any (fun kv =>
      kv.1 = "proxies" || kv.1 = "proxy-providers" || kv.1 = "external-controller"
        || kv.1 = "mixed-port" || kv.1 = "socks-port")
  | none => false

/-- Deduplication against an explicit seen set (the running HashSet of the
rebuild loops, as a list with membership semantics). -/
def dedupAgainst (seen : List String) : List String → List String
  | [] => []
  | x :: xs =>
    if seen.contains x then dedupAgainst seen xs
    else x :: dedupAgainst (x :: seen) xs

/-- The seen set after folding a list through seenStep. -/
def seenAcc (seen : List String) : List String → List String
  | [] => seen
  | x :: xs => seenAcc (if seen.contains x then seen else x :: seen) xs

/-! ### Concrete documents and inputs used by witnesses and counterexamples -/

/-- A group whose member list mixes a pseudo-target, a structural group
reference and a stale leaf proxy. -/
def exGroupAuto : Yaml :=
  .map [(.str "name", .str "Auto"),
    (.str "proxies", .seq [.str "DIRECT", .str "OldGroup", .str "StaleProxy"])]

/-- A pure meta-group (only a pseudo-target member). -/
def exGroupOld : Yaml :=
  .map [(.str "name", .str "OldGroup"), (.str "proxies", .seq [.str "DIRECT"])]

/-- A base document with one rewritable group, one meta-group and an
unrelated top-level key. -/
def exBase : Yaml :=
  .map [(.str "port", .num 7890), (.str "proxy-groups", .seq [exGroupAuto, exGroupOld])]

/-- Two records named A and B. -/
def psAB : List ProxySpec :=
  [⟨"A", [(.str "name", .str "A")]⟩, ⟨"B", [(.str "name", .str "B")]⟩]

/-- A base document with a single group holding one leaf member. -/
def exC3Base : Yaml :=
  .map [(.str "proxy-groups",
    .seq [.map [(.str "name", .str "G"), (.str "proxies", .seq [.str "X"])]])]

/-- Records whose second name collides with a pseudo-target. -/
def psAD : List ProxySpec :=
  [⟨"A", [(.str "name", .str "A")]⟩, ⟨"DIRECT", [(.str "name", .str "DIRECT")]⟩]

/-- A Shadowsocks link with base64 userinfo and an empty fragment. -/
def c4FailInput : Str :=
  ofString "ss://YWVzLTI1Ni1nY206cGFzc3dvcmQ=@example.com:8388#"

/-- A byte blob that is neither share-links nor base64 of share-links. -/
def c5Blob : List Nat := utf8Encode (ofString "hello")

/-- A raw subscription holding one decodable Shadowsocks line and one
garbage line. -/
def c6Raw : List Nat :=
  utf8Encode (ofString "ss://YWVzLTI1Ni1nY206cGFzc3dvcmQ=@example.com:8388#n\nhello world")

/-- The parsed JSON payload of the VMess link from the specification:
\x7b"add":"1.2.3.4","port":"443","id":"uuid","net":"ws","path":"/p",
"host":"h.example"\x7d. -/
def c7Doc : JsonDoc :=
  [("add", .jstr "1.2.3.4"), ("port", .jstr "443"), ("id", .jstr "uuid"),
   ("net", .jstr "ws"), ("path", .jstr "/p"), ("host", .jstr "h.example")]

/-- The record map the claim expects for c7Doc. -/
def c7Expected : List (Yaml × Yaml) :=
  [(.str "name", .str "1.2.3.4:443"), (.str "type", .str "vmess"),
   (.str "server", .str "1.2.3.4"), (.str "port", .num 443),
   (.str "uuid", .str "uuid"), (.str "cipher", .str "auto"),
   (.str "network", .str "ws"), (.str "servername", .str "h.example"),
   (.str "ws-opts", .map [(.str "path", .str "/p"),
     (.str "headers", .map [(.str "Host", .str "h.example")])])]

/-- A VMess payload with a tls field set to a meaningful value. -/
def c7DocTls : JsonDoc :=
  [("add", .jstr "1.2.3.4"), ("port", .jstr "443"), ("id", .jstr "uuid"),
   ("tls", .jstr "tls")]

/-- File content that the scan accepts although it is not valid YAML (an
unterminated flow mapping). -/
def c8Content : Str := ofString "\x7bproxies: "

/-- A well-formed flow-mapping control for the YAML model. -/
def c8Control : Str := ofString "\x7bproxies: 1\x7d"

/-- A plausible scan path for the c8 candidate. -/
def c8Path : Str := ofString "/home/user/.config/clash/config.yaml"

/-- The record produced for c7DocTls. -/
def c7SpecTls : ProxySpec :=
  ⟨"1.2.3.4:443",
   [(.str "name", .str "1.2.3.4:443"), (.str "type", .str "vmess"),
    (.str "server", .str "1.2.3.4"), (.str "port", .num 443),
    (.str "uuid", .str "uuid"), (.str "cipher", .str "auto"),
    (.str "tls", .bool true)]⟩

/-! ### Helper lemmas: mapping operations -/

theorem mapGet_mapInsert_self (m : List (Yaml × Yaml)) (k v : Yaml) :
    mapGet (mapInsert m k v) k = some v := by
  induction m with
  | nil => simp [mapInsert, mapGet]
  | cons e rest ih =>
    by_cases h : e.1 = k
    · rw [mapInsert, if_pos h, mapGet, if_pos rfl]
    · rw [mapInsert, if_neg h, mapGet, if_neg h, ih]

theorem mapGet_mapInsert_ne (m : List (Yaml × Yaml)) (k v k' : Yaml) (h : k' ≠ k) :
    mapGet (mapInsert m k v) k' = mapGet m k' := by
  have h1 : ¬(k = k') := fun hc => h hc.symm
  induction m with
  | nil => simp [mapInsert, mapGet, h1]
  | cons e rest ih =>
    by_cases he : e.1 = k
    · have h2 : ¬(e.1 = k') := by rw [he]; exact h1
      rw [mapInsert, if_pos he, mapGet, if_neg h1, mapGet, if_neg h2]
    · by_cases he' : e.1 = k'
      · rw [mapInsert, if_neg he, mapGet, if_pos he', mapGet, if_pos he']
      · rw [mapInsert, if_neg he, mapGet, if_neg he', mapGet, if_neg he', ih]

theorem mapInsert_of_mapGet_eq (m : List (Yaml × Yaml)) (k v : Yaml)
    (h : mapGet m k = some v) : mapInsert m k v = m := by
  induction m with
  | nil => simp [mapGet] at h
  | cons e rest ih =>
    by_cases he : e.1 = k
    · rw [mapGet, if_pos he] at h
      injection h with h
      rw [mapInsert, if_pos he]
      have he2 : e = (k, v) := by
        obtain ⟨a, b⟩ := e
        simp only at he h
        rw [he, h]
      rw [he2]
    · rw [mapGet, if_neg he] at h
      rw [mapInsert, if_neg he, ih h]

theorem filter_mapInsert (m : List (Yaml × Yaml)) (k v : Yaml)
    (p : Yaml × Yaml → Bool) (hp : ∀ w, p (k, w) = false) :
    (mapInsert m k v).filter p = m.filter p := by
  induction m with
  | nil => simp [mapInsert, List.filter_cons, hp v]
  | cons e rest ih =>
    by_cases he : e.1 = k
    · have h2 : p e = false := by
        have he2 : e = (k, e.2) := by
          obtain ⟨a, b⟩ := e
          simp only at he
          rw [he]
        rw [he2]; exact hp e.2
      rw [mapInsert, if_pos he]
      simp [List.filter_cons, hp v, h2]
    · rw [mapInsert, if_neg he]
      simp only [List.filter_cons, ih]

/-! ### Helper lemmas: deduplication -/

theorem dedupAgainst_eq_filter (seen : List String) (l : List String) :
    dedupAgainst seen l = dedupKeepFirst (l.filter (fun y => !seen.contains y)) := by
  induction l generalizing seen with
  | nil => simp [dedupAgainst, dedupKeepFirst]
  | cons x xs ih =>
    by_cases hx : x ∈ seen
    · simp [dedupAgainst, hx, List.filter_cons, ih]
    · have hfil : (xs.filter (fun y => !seen.contains y)).filter (fun y => y ≠ x)
        = xs.filter (fun y => !(x :: seen).contains y) := by
        rw [List.filter_filter]
        apply List.filter_congr
        intro y _
        by_cases h1 : y = x <;> by_cases h2 : y ∈ seen <;> simp [h1, h2]
      have hc : seen.contains x = false := by simpa using hx
      have hrec := ih (x :: seen)
      simp only [dedupAgainst, List.filter_cons, hc, Bool.false_eq_true, if_false,
        Bool.not_false, if_true]
      rw [dedupKeepFirst, hfil, ← hrec]

theorem dedupKeepFirst_eq_dedupAgainst (l : List String) :
    dedupKeepFirst l = dedupAgainst [] l := by
  rw [dedupAgainst_eq_filter]
  simp

theorem foldl_seenStep (l : List String) (out seen : List String) :
    List.foldl seenStep (out, seen) l = (out ++ dedupAgainst seen l, seenAcc seen l) := by
  induction l generalizing out seen with
  | nil => simp [dedupAgainst, seenAcc]
  | cons x xs ih =>
    by_cases hx : x ∈ seen
    · simp [List.foldl_cons, seenStep, hx, dedupAgainst, seenAcc, ih]
    · simp [List.foldl_cons, seenStep, hx, dedupAgainst, seenAcc, ih]

theorem seenAcc_mem (seen l : List String) (y : String) :
    y ∈ seenAcc seen l ↔ y ∈ seen ∨ y ∈ l := by
  induction l generalizing seen with
  | nil => simp [seenAcc]
  | cons x xs ih =>
    by_cases hx : x ∈ seen
    · rw [seenAcc, if_pos (by simpa using hx), ih]
      constructor
      · rintro (h | h)
        · exact Or.inl h
        · exact Or.inr (List.mem_cons_of_mem _ h)
      · rintro (h | h)
        · exact Or.inl h
        · rcases List.mem_cons.mp h with h | h
          · exact Or.inl (h ▸ hx)
          · exact Or.inr h
    · rw [seenAcc, if_neg (by simpa using hx), ih]
      simp only [List.mem_cons]
      tauto

theorem dedupAgainst_congr (seen1 seen2 l : List String)
    (h : ∀ y ∈ l, y ∈ seen1 ↔ y ∈ seen2) :
    dedupAgainst seen1 l = dedupAgainst seen2 l := by
  induction l generalizing seen1 seen2 with
  | nil => simp [dedupAgainst]
  | cons x xs ih =>
    by_cases hx : x ∈ seen1
    · rw [dedupAgainst, dedupAgainst, if_pos (by simpa using hx),
        if_pos (by simpa using (h x (List.mem_cons_self x xs)).mp hx)]
      exact ih seen1 seen2 (fun y hy => h y (List.mem_cons_of_mem _ hy))
    · rw [dedupAgainst, dedupAgainst, if_neg (by simpa using hx),
        if_neg (by simpa using fun hc => hx ((h x (List.mem_cons_self x xs)).mpr hc))]
      congr 1
      refine ih _ _ (fun y hy => ?_)
      simp only [List.mem_cons]
      exact or_congr Iff.rfl (h y (List.mem_cons_of_mem _ hy))

theorem dedupAgainst_append (seen a b : List String) :
    dedupAgainst seen (a ++ b) = dedupAgainst seen a ++ dedupAgainst (seenAcc seen a) b := by
  induction a generalizing seen with
  | nil => simp [dedupAgainst, seenAcc]
  | cons x xs ih =>
    by_cases hx : x ∈ seen
    · simp [dedupAgainst, seenAcc, hx, ih]
    · simp [dedupAgainst, seenAcc, hx, ih]

theorem mem_dedupAgainst (seen l : List String) (y : String) :
    y ∈ dedupAgainst seen l ↔ y ∈ l ∧ y ∉ seen := by
  induction l generalizing seen with
  | nil => simp [dedupAgainst]
  | cons x xs ih =>
    by_cases hx : x ∈ seen
    · rw [dedupAgainst, if_pos (by simpa using hx), ih]
      simp only [List.mem_cons]
      constructor
      · rintro ⟨h1, h2⟩; exact ⟨Or.inr h1, h2⟩
      · rintro ⟨h1 | h1, h2⟩
        · exact absurd (h1 ▸ hx) h2
        · exact ⟨h1, h2⟩
    · rw [dedupAgainst, if_neg (by simpa using hx)]
      simp only [List.mem_cons, ih]
      constructor
      · rintro (h | ⟨h1, h2⟩)
        · exact ⟨Or.inl h, h ▸ hx⟩
        · exact ⟨Or.inr h1, fun hc => h2 (Or.inr hc)⟩
      · rintro ⟨h1 | h1, h2⟩
        · exact Or.inl h1
        · by_cases hyx : y = x
          · exact Or.inl hyx
          · exact Or.inr ⟨h1, by simp [List.mem_cons, hyx, h2]⟩

theorem mem_dedupKeepFirst (l : List String) (y : String) :
    y ∈ dedupKeepFirst l ↔ y ∈ l := by
  rw [dedupKeepFirst_eq_dedupAgainst, mem_dedupAgainst]
  simp

theorem nodup_dedupAgainst (seen l : List String) : (dedupAgainst seen l).Nodup := by
  induction l generalizing seen with
  | nil => simp [dedupAgainst]
  | cons x xs ih =>
    by_cases hx : x ∈ seen
    · rw [dedupAgainst, if_pos (by simpa using hx)]; exact ih seen
    · rw [dedupAgainst, if_neg (by simpa using hx)]
      refine List.nodup_cons.mpr ⟨fun hc => ?_, ih (x :: seen)⟩
      exact ((mem_dedupAgainst _ _ _).mp hc).2 (List.mem_cons_self x seen)

theorem dedupKeepFirst_nodup (l : List String) : (dedupKeepFirst l).Nodup := by
  rw [dedupKeepFirst_eq_dedupAgainst]; exact nodup_dedupAgainst [] l

theorem dedupKeepFirst_of_nodup (l : List String) (h : l.Nodup) : dedupKeepFirst l = l := by
  induction l with
  | nil => simp [dedupKeepFirst]
  | cons x xs ih =>
    rcases List.nodup_cons.mp h with ⟨hx, hxs⟩
    rw [dedupKeepFirst]
    have : xs.filter (fun y => y ≠ x) = xs :=
      List.filter_eq_self.mpr (fun y hy => by
        simp only [ne_eq, decide_eq_true_eq]
        exact fun hc => hx (hc ▸ hy))
    rw [this, ih hxs]

theorem dedupKeepFirst_idem (l : List String) :
    dedupKeepFirst (dedupKeepFirst l) = dedupKeepFirst l :=
  dedupKeepFirst_of_nodup _ (dedupKeepFirst_nodup l)

theorem dedupKeepFirst_append_left_dedup (a b : List String) :
    dedupKeepFirst (dedupKeepFirst a ++ b) = dedupKeepFirst (a ++ b) := by
  rw [dedupKeepFirst_eq_dedupAgainst (dedupKeepFirst a ++ b),
    dedupKeepFirst_eq_dedupAgainst (a ++ b), dedupAgainst_append, dedupAgainst_append]
  congr 1
  · rw [← dedupKeepFirst_eq_dedupAgainst, dedupKeepFirst_idem,
      dedupKeepFirst_eq_dedupAgainst]
  · refine dedupAgainst_congr _ _ _ (fun y _ => ?_)
    rw [seenAcc_mem, seenAcc_mem, mem_dedupKeepFirst]

theorem filter_dedupAgainst (p : String → Bool) (l : List String) :
    ∀ seen1 seen2, (∀ y, p y = true → (y ∈ seen1 ↔ y ∈ seen2)) →
    (dedupAgainst seen1 l).filter p = dedupAgainst seen2 (l.filter p) := by
  induction l with
  | nil => intro seen1 seen2 _; simp [dedupAgainst]
  | cons x xs ih =>
    intro seen1 seen2 h
    by_cases hp : p x = true
    · by_cases hx : x ∈ seen1
      · rw [dedupAgainst, if_pos (by simpa using hx), List.filter_cons, hp]
        simp only [if_true]
        rw [dedupAgainst, if_pos (by simpa using (h x hp).mp hx)]
        exact ih seen1 seen2 h
      · rw [dedupAgainst, if_neg (by simpa using hx), List.filter_cons, List.filter_cons, hp]
        simp only [if_true]
        rw [dedupAgainst, if_neg (by simpa using fun hc => hx ((h x hp).mpr hc))]
        congr 1
        refine ih (x :: seen1) (x :: seen2) (fun y hy => ?_)
        simp only [List.mem_cons]
        exact or_congr Iff.rfl (h y hy)
    · have hp' : p x = false := by simpa using hp
      by_cases hx : x ∈ seen1
      · rw [dedupAgainst, if_pos (by simpa using hx), List.filter_cons, hp']
        simp only [Bool.false_eq_true, if_false]
        exact ih seen1 seen2 h
      · rw [dedupAgainst, if_neg (by simpa using hx), List.filter_cons, List.filter_cons, hp']
        simp only [Bool.false_eq_true, if_false]
        refine ih (x :: seen1) seen2 (fun y hy => ?_)
        have hyx : y ≠ x := fun hc => hp (hc ▸ hy)
        simp only [List.mem_cons, hyx, false_or]
        exact h y hy

theorem filter_dedupKeepFirst (p : String → Bool) (l : List String) :
    (dedupKeepFirst l).filter p = dedupKeepFirst (l.filter p) := by
  rw [dedupKeepFirst_eq_dedupAgainst, dedupKeepFirst_eq_dedupAgainst]
  exact filter_dedupAgainst p l [] [] (fun _ _ => Iff.rfl)

/-! ### Helper lemmas: the member-list rebuild -/

theorem rebuildPhase1_eq_foldl (gn : List String) (items : List Yaml)
    (st : List String × List String) :
    rebuildPhase1 gn items st =
      List.foldl seenStep st
        (((items.filterMap Yaml.asStr).filter (fun n => isStructural gn n))) := by
  induction items generalizing st with
  | nil => simp [rebuildPhase1]
  | cons e rest ih =>
    match he : e.asStr with
    | none =>
      rw [rebuildPhase1, List.foldl_cons, he, List.filterMap_cons, he]
      exact ih st
    | some name =>
      by_cases hs : isStructural gn name = true
      · rw [rebuildPhase1, List.foldl_cons, he, List.filterMap_cons, he, List.filter_cons, hs]
        simp only [if_true, List.foldl_cons, hs]
        exact ih (seenStep st name)
      · have hs' : isStructural gn name = false := by simpa using hs
        rw [rebuildPhase1, List.foldl_cons, he, List.filterMap_cons, he, List.filter_cons, hs']
        simp only [Bool.false_eq_true, if_false, hs']
        exact ih st

theorem rebuildMembers_eq_spec (gn rn : List String) (items : List Yaml) :
    rebuildMembers gn rn items = specRebuildMembers gn rn (items.filterMap Yaml.asStr) := by
  rw [rebuildMembers, rebuildPhase2, rebuildPhase1_eq_foldl, foldl_seenStep, foldl_seenStep]
  simp only [List.nil_append]
  rw [specRebuildMembers, dedupKeepFirst_eq_dedupAgainst, dedupAgainst_append]

theorem hasProxyEntries_eq (gn : List String) (items : List Yaml) :
    hasProxyEntries gn items =
      (items.filterMap Yaml.asStr).any (fun n => !(isStructural gn n)) := by
  induction items with
  | nil => simp [hasProxyEntries]
  | cons e rest ih =>
    match he : e.asStr with
    | none =>
      rw [hasProxyEntries, List.any_cons, he, List.filterMap_cons, he]
      rw [hasProxyEntries] at ih
      simp only [ih]
      simp
    | some name =>
      rw [hasProxyEntries, List.any_cons, he, List.filterMap_cons, he]
      rw [hasProxyEntries] at ih
      simp only [ih, List.any_cons]

theorem transformGroup_eq_spec (gn rn : List String) (g : Yaml) :
    transformGroup gn rn g = specTransformGroup gn rn g := by
  match g with
  | .null | .bool _ | .num _ | .str _ | .seq _ => rfl
  | .map gm =>
    rw [transformGroup, specTransformGroup]
    match mapGet gm (.str "proxies") with
    | none => rfl
    | some (.null) | some (.bool _) | some (.num _) | some (.str _) | some (.map _) => rfl
    | some (.seq items) =>
      simp only
      rw [hasProxyEntries_eq, rebuildMembers_eq_spec]

theorem transformGroup_rebuild_eq (gn rn : List String) (gm : List (Yaml × Yaml))
    (items : List Yaml)
    (h1 : mapGet gm (.str "proxies") = some (.seq items))
    (h2 : hasProxyEntries gn items = true) :
    transformGroup gn rn (.map gm) =
      .map (mapInsert gm (.str "proxies")
        (.seq ((rebuildMembers gn rn items).map Yaml.str))) := by
  rw [transformGroup, h1]
  simp [h2]

theorem transformGroup_skip_eq (gn rn : List String) (gm : List (Yaml × Yaml))
    (items : List Yaml)
    (h1 : mapGet gm (.str "proxies") = some (.seq items))
    (h2 : hasProxyEntries gn items = false) :
    transformGroup gn rn (.map gm) = .map gm := by
  rw [transformGroup, h1]
  simp [h2]

theorem transformGroup_nonseq_eq (gn rn : List String) (gm : List (Yaml × Yaml))
    (h1 : ∀ items, mapGet gm (.str "proxies") ≠ some (.seq items)) :
    transformGroup gn rn (.map gm) = .map gm := by
  rw [transformGroup]
  split
  · rename_i items hit
    exact absurd hit (h1 items)
  · rfl

/-! ### Helper lemmas: the top-level merge -/

theorem str_proxies_ne_groups : (Yaml.str "proxy-groups") ≠ (Yaml.str "proxies") := by
  decide

theorem groupNamesOf_mapInsert_proxies (m : List (Yaml × Yaml)) (v : Yaml) :
    groupNamesOf (mapInsert m (.str "proxies") v) = groupNamesOf m := by
  rw [groupNamesOf, groupNamesOf, mapGet_mapInsert_ne _ _ _ _ str_proxies_ne_groups]

theorem mapGet_groups_mapInsert_proxies (m : List (Yaml × Yaml)) (v : Yaml) :
    mapGet (mapInsert m (.str "proxies") v) (.str "proxy-groups") =
      mapGet m (.str "proxy-groups") :=
  mapGet_mapInsert_ne _ _ _ _ str_proxies_ne_groups

/-- The merge, case proxy-groups present as a sequence: the document
becomes the proxies-replaced map with every group transformed. -/
theorem applyProxies_eq_of_groups (base : Option Yaml) (ps : List ProxySpec)
    (gs : List Yaml)
    (h : mapGet (configMapOf base) (.str "proxy-groups") = some (.seq gs)) :
    applyProxiesToConfig base ps =
      .map (mapInsert (mapInsert (configMapOf base) (.str "proxies") (proxySpecsToYaml ps))
        (.str "proxy-groups")
        (.seq (gs.map (transformGroup (docGroupNames base) (ps.map ProxySpec.name))))) := by
  rw [applyProxiesToConfig]
  simp only [mapGet_groups_mapInsert_proxies, h, groupNamesOf_mapInsert_proxies]
  rw [docGroupNames]

/-- The merge, case proxy-groups absent or not a sequence: only the proxies
key is replaced. -/
theorem applyProxies_eq_of_no_groups (base : Option Yaml) (ps : List ProxySpec)
    (h : ∀ gs, mapGet (configMapOf base) (.str "proxy-groups") ≠ some (.seq gs)) :
    applyProxiesToConfig base ps =
      .map (mapInsert (configMapOf base) (.str "proxies") (proxySpecsToYaml ps)) := by
  rw [applyProxiesToConfig]
  simp only [mapGet_groups_mapInsert_proxies]

theorem docGroups_applyProxies (base : Option Yaml) (ps : List ProxySpec)
    (gs : List Yaml)
    (h : mapGet (configMapOf base) (.str "proxy-groups") = some (.seq gs)) :
    docGroups (applyProxiesToConfig base ps) =
      some (gs.map (transformGroup (docGroupNames base) (ps.map ProxySpec.name))) := by
  rw [applyProxies_eq_of_groups base ps gs h, docGroups, mapGet_mapInsert_self]

/-! ### Claim C2 -/

/-- C2: for every base document and record list, each proxy-groups entry
whose member list contains a leaf name (one outside the group names and
pseudo-targets) is rewritten to the structural members in original order,
deduplicated, followed by the record names in original order, deduplicated
against the same running set; entries without a leaf name — and entries
that are not mappings or lack a sequence member list — are left unchanged.
Stated through specTransformGroup, which is written from the spec wording,
and proved equal to the code's transform. -/
theorem c2_group_rewrite (base : Option Yaml) (ps : List ProxySpec) (gs : List Yaml)
    (h : mapGet (configMapOf base) (.str "proxy-groups") = some (.seq gs)) :
    docGroups (applyProxiesToConfig base ps) =
      some (gs.map (specTransformGroup (docGroupNames base) (ps.map ProxySpec.name))) := by
  have hfun : transformGroup (docGroupNames base) (ps.map ProxySpec.name) =
      specTransformGroup (docGroupNames base) (ps.map ProxySpec.name) :=
    funext (transformGroup_eq_spec _ _)
  rw [docGroups_applyProxies base ps gs h, hfun]

/-- Witness for c2_group_rewrite at a concrete document. -/
theorem c2_witness :
    mapGet (configMapOf (some exBase)) (.str "proxy-groups") =
      some (.seq [exGroupAuto, exGroupOld]) ∧
    docGroups (applyProxiesToConfig (some exBase) psAB) =
      some ([exGroupAuto, exGroupOld].map
        (specTransformGroup (docGroupNames (some exBase)) (psAB.map ProxySpec.name))) :=
  ⟨by decide, c2_group_rewrite (some exBase) psAB [exGroupAuto, exGroupOld] (by decide)⟩

/-! ### Claim C1 -/

/-- C1 counterexample: merging records A and B into the concrete base whose
group Auto has members [DIRECT, OldGroup, StaleProxy] (OldGroup structural,
StaleProxy a stale leaf) yields [DIRECT, OldGroup, A, B]: the stale leaf is
dropped, contradicting the claimed [DIRECT, OldGroup, StaleProxy, A, B]. -/
theorem c1_counterexample :
    docGroupMembersAt (applyProxiesToConfig (some exBase) psAB) 0 =
      some ["DIRECT", "OldGroup", "A", "B"] ∧
    some ["DIRECT", "OldGroup", "A", "B"] ≠
      some ["DIRECT", "OldGroup", "StaleProxy", "A", "B"] := by
  constructor
  · decide
  · decide

/-- C1 (amended): merging records named A and B into a base whose
proxy-groups contains a group with member list [DIRECT, OldGroup,
StaleProxy], where OldGroup is a group name and StaleProxy is neither a
group name nor a pseudo-target, rewrites that group's member list to
[DIRECT, OldGroup, A, B]: structural members preserved in order, the
pre-existing leaf entry replaced by the record names, which are appended in
order. -/
theorem c1_amended (base : Option Yaml) (ps : List ProxySpec) (gs : List Yaml)
    (i : Nat) (gm : List (Yaml × Yaml))
    (hg : mapGet (configMapOf base) (.str "proxy-groups") = some (.seq gs))
    (hi : gs[i]? = some (.map gm))
    (hm : mapGet gm (.str "proxies") =
      some (.seq [.str "DIRECT", .str "OldGroup", .str "StaleProxy"]))
    (hog : "OldGroup" ∈ docGroupNames base)
    (hsp : isStructural (docGroupNames base) "StaleProxy" = false)
    (hns : ps.map ProxySpec.name = ["A", "B"]) :
    ∃ gs', docGroups (applyProxiesToConfig base ps) = some gs' ∧
      gs'[i]? = some (.map (mapInsert gm (.str "proxies")
        (.seq [.str "DIRECT", .str "OldGroup", .str "A", .str "B"]))) := by
  refine ⟨_, docGroups_applyProxies base ps gs hg, ?_⟩
  rw [List.getElem?_map, hi]
  rw [Option.map]
  simp only [Option.some.injEq]
  have hdir : isStructural (docGroupNames base) "DIRECT" = true := by
    rw [isStructural]
    simp [specialTargets]
  have hogc : isStructural (docGroupNames base) "OldGroup" = true := by
    rw [isStructural]
    simp [hog]
  have hleaf : hasProxyEntries (docGroupNames base)
      [.str "DIRECT", .str "OldGroup", .str "StaleProxy"] = true := by
    rw [hasProxyEntries_eq]
    simp only [List.filterMap_cons, Yaml.asStr, List.filterMap_nil, List.any_cons,
      List.any_nil, hdir, hogc, hsp, Bool.not_true, Bool.not_false, Bool.false_or,
      Bool.or_false]
  rw [transformGroup_rebuild_eq _ _ _ _ hm hleaf]
  rw [rebuildMembers_eq_spec]
  simp only [List.filterMap_cons, Yaml.asStr, List.filterMap_nil]
  rw [specRebuildMembers, hns]
  simp only [List.filter_cons, hdir, hogc, hsp, if_true, List.filter_nil,
    Bool.false_eq_true, if_false]
  have happ : (["DIRECT", "OldGroup"] ++ ["A", "B"] : List String)
      = ["DIRECT", "OldGroup", "A", "B"] := rfl
  rw [happ, dedupKeepFirst_of_nodup _ (by decide)]
  rfl

/-- Witness for c1_amended at a concrete document. -/
theorem c1_witness :
    ∃ gs', docGroups (applyProxiesToConfig (some exBase) psAB) = some gs' ∧
      gs'[0]? = some (.map (mapInsert
        [((Yaml.str "name"), Yaml.str "Auto"),
         ((Yaml.str "proxies"), Yaml.seq [.str "DIRECT", .str "OldGroup", .str "StaleProxy"])]
        (.str "proxies")
        (.seq [.str "DIRECT", .str "OldGroup", .str "A", .str "B"]))) :=
  c1_amended (some exBase) psAB [exGroupAuto, exGroupOld] 0 _
    (by decide) (by decide) (by decide) (by decide) (by decide) (by decide)

/-! ### Claim C9 -/

/-- C9: the merge only touches the top-level proxies and proxy-groups keys
— every other top-level entry of the base mapping survives with its value
and relative order intact (stated as equality of the filtered entry lists)
— and an unparsable base document (`none`, and likewise a non-mapping
document) is treated exactly as an empty mapping; the embedding is total,
so the merge never fails. -/
theorem c9_frame (base : Option Yaml) (ps : List ProxySpec) :
    (∃ m, applyProxiesToConfig base ps = .map m ∧
      m.filter (fun e => e.1 ≠ Yaml.str "proxies" && e.1 ≠ Yaml.str "proxy-groups") =
        (configMapOf base).filter
          (fun e => e.1 ≠ Yaml.str "proxies" && e.1 ≠ Yaml.str "proxy-groups"))
    ∧ applyProxiesToConfig none ps = applyProxiesToConfig (some (.map [])) ps := by
  constructor
  · have hp : ∀ w : Yaml,
        ((fun e : Yaml × Yaml =>
          e.1 ≠ Yaml.str "proxies" && e.1 ≠ Yaml.str "proxy-groups")
          ((Yaml.str "proxies"), w)) = false := by
      intro w; simp
    have hg : ∀ w : Yaml,
        ((fun e : Yaml × Yaml =>
          e.1 ≠ Yaml.str "proxies" && e.1 ≠ Yaml.str "proxy-groups")
          ((Yaml.str "proxy-groups"), w)) = false := by
      intro w; simp
    match hgs : mapGet (configMapOf base) (.str "proxy-groups") with
    | some (.seq gs) =>
      refine ⟨_, applyProxies_eq_of_groups base ps gs hgs, ?_⟩
      rw [filter_mapInsert _ _ _ _ hg, filter_mapInsert _ _ _ _ hp]
    | none =>
      refine ⟨_, applyProxies_eq_of_no_groups base ps (by simp [hgs]), ?_⟩
      rw [filter_mapInsert _ _ _ _ hp]
    | some (.null) =>
      refine ⟨_, applyProxies_eq_of_no_groups base ps (by simp [hgs]), ?_⟩
      rw [filter_mapInsert _ _ _ _ hp]
    | some (.bool _) =>
      refine ⟨_, applyProxies_eq_of_no_groups base ps (by simp [hgs]), ?_⟩
      rw [filter_mapInsert _ _ _ _ hp]
    | some (.num _) =>
      refine ⟨_, applyProxies_eq_of_no_groups base ps (by simp [hgs]), ?_⟩
      rw [filter_mapInsert _ _ _ _ hp]
    | some (.str _) =>
      refine ⟨_, applyProxies_eq_of_no_groups base ps (by simp [hgs]), ?_⟩
      rw [filter_mapInsert _ _ _ _ hp]
    | some (.map _) =>
      refine ⟨_, applyProxies_eq_of_no_groups base ps (by simp [hgs]), ?_⟩
      rw [filter_mapInsert _ _ _ _ hp]
  · rfl

/-! ### Idempotence machinery for claim C3 -/

theorem str_proxies_ne_name : (Yaml.str "name") ≠ (Yaml.str "proxies") := by
  decide

theorem groupEntryName_transformGroup (gn rn : List String) (g : Yaml) :
    groupEntryName (transformGroup gn rn g) = groupEntryName g := by
  match g with
  | .null | .bool _ | .num _ | .str _ | .seq _ => rfl
  | .map gm =>
    match hk : mapGet gm (.str "proxies") with
    | some (.seq items) =>
      by_cases hh : hasProxyEntries gn items = true
      · rw [transformGroup_rebuild_eq gn rn gm items hk hh, groupEntryName, groupEntryName,
          mapGet_mapInsert_ne _ _ _ _ str_proxies_ne_name]
      · rw [transformGroup_skip_eq gn rn gm items hk (by simpa using hh)]
    | none => rw [transformGroup_nonseq_eq gn rn gm (by simp [hk])]
    | some (.null) => rw [transformGroup_nonseq_eq gn rn gm (by simp [hk])]
    | some (.bool _) => rw [transformGroup_nonseq_eq gn rn gm (by simp [hk])]
    | some (.num _) => rw [transformGroup_nonseq_eq gn rn gm (by simp [hk])]
    | some (.str _) => rw [transformGroup_nonseq_eq gn rn gm (by simp [hk])]
    | some (.map _) => rw [transformGroup_nonseq_eq gn rn gm (by simp [hk])]

theorem filterMap_asStr_map_str (l : List String) :
    (l.map Yaml.str).filterMap Yaml.asStr = l := by
  induction l with
  | nil => simp
  | cons x xs ih => simp [Yaml.asStr, ih]

theorem filter_self_filter (p : String → Bool) (l : List String) :
    (l.filter p).filter p = l.filter p := by
  rw [List.filter_filter]
  apply List.filter_congr
  intro a _
  rw [Bool.and_self]

theorem transformGroup_idem (gn rn : List String) (g : Yaml)
    (hrn : ∀ n ∈ rn, isStructural gn n = false) :
    transformGroup gn rn (transformGroup gn rn g) = transformGroup gn rn g := by
  match g with
  | .null | .bool _ | .num _ | .str _ | .seq _ => rfl
  | .map gm =>
    match hk : mapGet gm (.str "proxies") with
    | some (.seq items) =>
      by_cases hh : hasProxyEntries gn items = true
      · rw [transformGroup_rebuild_eq gn rn gm items hk hh]
        have hL := rebuildMembers_eq_spec gn rn items
        set L := rebuildMembers gn rn items with hLdef
        have hget : mapGet (mapInsert gm (.str "proxies") (.seq (L.map Yaml.str)))
            (.str "proxies") = some (.seq (L.map Yaml.str)) :=
          mapGet_mapInsert_self _ _ _
        set names := items.filterMap Yaml.asStr with hnames
        set S := names.filter (fun n => isStructural gn n) with hS
        have hLSpec : L = dedupKeepFirst (S ++ rn) := by
          rw [hL, specRebuildMembers]
        have hrnNil : rn.filter (fun n => isStructural gn n) = [] :=
          List.filter_eq_nil_iff.mpr (fun n hn => by simp [hrn n hn])
        have hSS : S.filter (fun n => isStructural gn n) = S := by
          rw [hS, filter_self_filter]
        have hSfix : L.filter (fun n => isStructural gn n) = dedupKeepFirst S := by
          rw [hLSpec, filter_dedupKeepFirst, List.filter_append, hSS, hrnNil,
            List.append_nil]
        by_cases hh2 : hasProxyEntries gn (L.map Yaml.str) = true
        · rw [transformGroup_rebuild_eq gn rn _ _ hget hh2]
          have hre : rebuildMembers gn rn (L.map Yaml.str) = L := by
            rw [rebuildMembers_eq_spec, filterMap_asStr_map_str, specRebuildMembers,
              hSfix, dedupKeepFirst_append_left_dedup, ← hLSpec]
          rw [hre, mapInsert_of_mapGet_eq _ _ _ hget]
        · rw [transformGroup_skip_eq gn rn _ _ hget (by simpa using hh2)]
      · rw [transformGroup_skip_eq gn rn gm items hk (by simpa using hh),
          transformGroup_skip_eq gn rn gm items hk (by simpa using hh)]
    | none =>
      rw [transformGroup_nonseq_eq gn rn gm (by simp [hk]),
        transformGroup_nonseq_eq gn rn gm (by simp [hk])]
    | some (.null) =>
      rw [transformGroup_nonseq_eq gn rn gm (by simp [hk]),
        transformGroup_nonseq_eq gn rn gm (by simp [hk])]
    | some (.bool _) =>
      rw [transformGroup_nonseq_eq gn rn gm (by simp [hk]),
        transformGroup_nonseq_eq gn rn gm (by simp [hk])]
    | some (.num _) =>
      rw [transformGroup_nonseq_eq gn rn gm (by simp [hk]),
        transformGroup_nonseq_eq gn rn gm (by simp [hk])]
    | some (.str _) =>
      rw [transformGroup_nonseq_eq gn rn gm (by simp [hk]),
        transformGroup_nonseq_eq gn rn gm (by simp [hk])]
    | some (.map _) =>
      rw [transformGroup_nonseq_eq gn rn gm (by simp [hk]),
        transformGroup_nonseq_eq gn rn gm (by simp [hk])]

theorem groupNamesOf_eq_of_seq (m : List (Yaml × Yaml)) (gs : List Yaml)
    (h : mapGet m (.str "proxy-groups") = some (.seq gs)) :
    groupNamesOf m = gs.filterMap groupEntryName := by
  rw [groupNamesOf, h]

/-! ### Claim C3 -/

/-- C3 counterexample: with a base holding one group G = [X] and records
named [A, DIRECT], the first merge yields members [A, DIRECT] but the
second run reclassifies the appended DIRECT as structural and moves it to
the front, [DIRECT, A] — the merge is not idempotent for every record
list. -/
theorem c3_counterexample :
    applyProxiesToConfig (some (applyProxiesToConfig (some exC3Base) psAD)) psAD ≠
      applyProxiesToConfig (some exC3Base) psAD ∧
    docGroupMembersAt (applyProxiesToConfig (some exC3Base) psAD) 0 = some ["A", "DIRECT"] ∧
    docGroupMembersAt
      (applyProxiesToConfig (some (applyProxiesToConfig (some exC3Base) psAD)) psAD) 0 =
      some ["DIRECT", "A"] :=
  ⟨by decide, by decide, by decide⟩

/-- C3 (amended): applying the merge to its own output with the same
records is idempotent at document level — hence byte-identical after the
deterministic serialization — provided no record name collides with a
structural name (a group name of the base or a special pseudo-target); the
counterexample shows the proviso is necessary. -/
theorem c3_amended_idempotent (base : Option Yaml) (ps : List ProxySpec)
    (h : ∀ p ∈ ps, isStructural (docGroupNames base) p.name = false) :
    applyProxiesToConfig (some (applyProxiesToConfig base ps)) ps =
      applyProxiesToConfig base ps := by
  have hrn : ∀ n ∈ ps.map ProxySpec.name, isStructural (docGroupNames base) n = false := by
    intro n hn
    rcases List.mem_map.mp hn with ⟨p, hp, rfl⟩
    exact h p hp
  by_cases hseq : ∃ gs, mapGet (configMapOf base) (.str "proxy-groups") = some (.seq gs)
  · obtain ⟨gs, hgs⟩ := hseq
    have e1 := applyProxies_eq_of_groups base ps gs hgs
    rw [e1]
    set gn := docGroupNames base with hgn
    set rn := ps.map ProxySpec.name with hrndef
    set CM2 := mapInsert (configMapOf base) (.str "proxies") (proxySpecsToYaml ps) with hCM2
    set gs' := gs.map (transformGroup gn rn) with hgs'
    set M := mapInsert CM2 (.str "proxy-groups") (.seq gs') with hM
    have fP : mapGet M (.str "proxies") = some (proxySpecsToYaml ps) := by
      rw [hM, mapGet_mapInsert_ne _ _ _ _ (Ne.symm str_proxies_ne_groups), hCM2,
        mapGet_mapInsert_self]
    have fM : mapInsert M (.str "proxies") (proxySpecsToYaml ps) = M :=
      mapInsert_of_mapGet_eq _ _ _ fP
    have fG : mapGet M (.str "proxy-groups") = some (.seq gs') := by
      rw [hM, mapGet_mapInsert_self]
    have fgn2 : docGroupNames (some (.map M)) = gn := by
      have h1 : docGroupNames (some (.map M)) = gs'.filterMap groupEntryName := by
        rw [docGroupNames]
        exact groupNamesOf_eq_of_seq M gs' fG
      have h2 : groupEntryName ∘ transformGroup gn rn = groupEntryName :=
        funext (groupEntryName_transformGroup gn rn)
      rw [h1, hgs', List.filterMap_map, h2, hgn, docGroupNames,
        groupNamesOf_eq_of_seq _ _ hgs]
    have e2 := applyProxies_eq_of_groups (some (.map M)) ps gs' fG
    have hcm : configMapOf (some (Yaml.map M)) = M := rfl
    have fidem : gs'.map (transformGroup gn rn) = gs' := by
      rw [hgs', List.map_map]
      exact List.map_congr_left (fun g _ => transformGroup_idem gn rn g hrn)
    rw [e2, fgn2, hcm, fM, ← hrndef, fidem, mapInsert_of_mapGet_eq _ _ _ fG]
  · have hno : ∀ gs, mapGet (configMapOf base) (.str "proxy-groups") ≠ some (.seq gs) := by
      intro gs hc
      exact hseq ⟨gs, hc⟩
    have e1 := applyProxies_eq_of_no_groups base ps hno
    rw [e1]
    set M := mapInsert (configMapOf base) (.str "proxies") (proxySpecsToYaml ps) with hM
    have fP : mapGet M (.str "proxies") = some (proxySpecsToYaml ps) := by
      rw [hM, mapGet_mapInsert_self]
    have hno2 : ∀ gs, mapGet (configMapOf (some (.map M))) (.str "proxy-groups")
        ≠ some (.seq gs) := by
      intro gs
      show mapGet M (.str "proxy-groups") ≠ some (.seq gs)
      rw [hM, mapGet_groups_mapInsert_proxies]
      exact hno gs
    rw [applyProxies_eq_of_no_groups (some (.map M)) ps hno2]
    show Yaml.map (mapInsert M (.str "proxies") (proxySpecsToYaml ps)) = Yaml.map M
    rw [mapInsert_of_mapGet_eq _ _ _ fP]

/-- Witness for c3_amended_idempotent at a concrete document. -/
theorem c3_witness :
    (∀ p ∈ psAB, isStructural (docGroupNames (some exBase)) p.name = false) ∧
    applyProxiesToConfig (some (applyProxiesToConfig (some exBase) psAB)) psAB =
      applyProxiesToConfig (some exBase) psAB :=
  ⟨by decide, c3_amended_idempotent (some exBase) psAB (by decide)⟩

/-! ### Claim C4 -/

/-- C4: evaluating the Shadowsocks decoder at a link with an empty fragment
shows the produced record carries an empty name, violating the invariant
that every decoded record has a non-empty name (the other three decoders
filter empty fragments; parse_ss_url does not). -/
theorem c4_ss_empty_name_eval :
    (parseSsUrl c4FailInput).map ProxySpec.name = some "" ∧
    (parseSsUrl c4FailInput).map (fun p => mapGet p.map (.str "port")) =
      some (some (.num 8388)) := by
  exact ⟨by decide, by decide⟩

/-! ### Claim C8 -/

/-- C8 counterexample: the unterminated flow mapping "\x7bproxies: " is not
YAML (the modelled parser rejects it, as serde_yaml does), yet the content
heuristic accepts it; the closed control document shows the YAML model is
not degenerate. -/
theorem c8_counterexample :
    isProbableClashConfig c8Content = true ∧
    yamlFlowParse c8Content = none ∧
    specContentHeuristic c8Content = false ∧
    yamlFlowParse c8Control = some [("proxies", "1")] ∧
    specContentHeuristic c8Control = true := by
  exact ⟨by decide, by decide, by decide, by decide, by decide⟩

/-- C8 (amended): a scan candidate is accepted exactly by the filename
check, the tool-name path heuristic, and a case-insensitive substring test
for the five marker strings on the content; no YAML parse is involved, so
acceptance implies the substring test but not YAML validity. -/
theorem c8_amended_accept (path : Str) (fname : String) (content : Str)
    (h : scanAcceptsCandidate path fname content = true) :
    isConfigFilename fname = true ∧ looksLikeClashPath path = true ∧
      markerSubstrings.any (fun m => hasSub (ofString m) (content.map Char.toLower)) = true := by
  rw [scanAcceptsCandidate] at h
  simp only [Bool.and_eq_true] at h
  obtain ⟨⟨h1, h2⟩, h3⟩ := h
  refine ⟨h1, h2, ?_⟩
  rw [isProbableClashConfig] at h3
  simp only [markerSubstrings, List.any_cons, List.any_nil, Bool.or_eq_true] at h3 ⊢
  tauto

/-- Witness for c8_amended_accept at the concrete non-YAML candidate. -/
theorem c8_witness :
    scanAcceptsCandidate c8Path "config.yaml" c8Content = true ∧
    (isConfigFilename "config.yaml" = true ∧ looksLikeClashPath c8Path = true ∧
      markerSubstrings.any
        (fun m => hasSub (ofString m) (c8Content.map Char.toLower)) = true) :=
  ⟨by decide, c8_amended_accept c8Path "config.yaml" c8Content (by decide)⟩

/-! ### Text lemmas for claim C5 -/

theorem mem_dropWhile_of_not (p : Char → Bool) (l : Str) (c : Char)
    (hc : c ∈ l) (hp : p c = false) : c ∈ l.dropWhile p := by
  induction l with
  | nil => simp at hc
  | cons x xs ih =>
    by_cases hx : p x = true
    · rw [List.dropWhile_cons_of_pos hx]
      rcases List.mem_cons.mp hc with h | h
      · rw [h] at hp
        rw [hp] at hx
        simp at hx
      · exact ih h
    · rw [List.dropWhile_cons_of_neg hx]
      exact hc

theorem trimStr_eq_nil_iff (l : Str) :
    trimStr l = [] ↔ ∀ c ∈ l, isWsChar c = true := by
  rw [trimStr, List.reverse_eq_nil_iff, List.dropWhile_eq_nil_iff]
  constructor
  · intro h c hc
    by_cases hw : isWsChar c = true
    · exact hw
    · have h1 : c ∈ l.dropWhile isWsChar :=
        mem_dropWhile_of_not _ _ _ hc (by simpa using hw)
      exact h c (List.mem_reverse.mpr h1)
  · intro h c hc
    have h1 : c ∈ l.dropWhile isWsChar := List.mem_reverse.mp hc
    exact h c ((List.dropWhile_sublist _).mem h1)

theorem mem_trimStr_of_not_ws (l : Str) (c : Char) (hc : c ∈ l)
    (hw : isWsChar c = false) : c ∈ trimStr l := by
  rw [trimStr, List.mem_reverse]
  apply mem_dropWhile_of_not _ _ _ _ hw
  rw [List.mem_reverse]
  exact mem_dropWhile_of_not _ _ _ hc hw

theorem splitOnChar_ne_nil (sep : Char) (l : Str) : splitOnChar sep l ≠ [] := by
  match l with
  | [] => simp [splitOnChar]
  | c :: rest =>
    rw [splitOnChar]
    by_cases h : c = sep
    · simp [h]
    · simp only [h, if_false]
      match splitOnChar sep rest with
      | [] => simp
      | x :: xs => simp

theorem exists_part_with_mem (sep : Char) (l : Str) (c : Char)
    (hc : c ∈ l) (hne : c ≠ sep) :
    ∃ part ∈ splitOnChar sep l, c ∈ part := by
  induction l with
  | nil => simp at hc
  | cons x xs ih =>
    by_cases hx : x = sep
    · rw [splitOnChar, if_pos hx]
      rcases List.mem_cons.mp hc with h | h
      · exact absurd (h.trans hx) hne
      · obtain ⟨part, hp1, hp2⟩ := ih h
        exact ⟨part, List.mem_cons_of_mem _ hp1, hp2⟩
    · rw [splitOnChar, if_neg hx]
      match hs : splitOnChar sep xs with
      | [] => exact absurd hs (splitOnChar_ne_nil sep xs)
      | l0 :: ls =>
        rcases List.mem_cons.mp hc with h | h
        · exact ⟨x :: l0, List.mem_cons_self _ _, h ▸ List.mem_cons_self _ _⟩
        · obtain ⟨part, hp1, hp2⟩ := ih h
          rw [hs] at hp1
          rcases List.mem_cons.mp hp1 with h1 | h1
          · exact ⟨x :: l0, List.mem_cons_self _ _, h1 ▸ List.mem_cons_of_mem _ hp2⟩
          · exact ⟨part, List.mem_cons_of_mem _ h1, hp2⟩

theorem linesOf_ne_nil (text : Str) (c : Char) (hc : c ∈ text)
    (hw : isWsChar c = false) :
    ((splitOnChar '\n' text).map trimStr).filter (fun l => !l.isEmpty) ≠ [] := by
  have hne : c ≠ '\n' := by
    intro h
    rw [h] at hw
    simp [isWsChar] at hw
  obtain ⟨part, hp1, hp2⟩ := exists_part_with_mem '\n' text c hc hne
  have htrim : trimStr part ≠ [] := by
    intro h
    have := (trimStr_eq_nil_iff part).mp h c hp2
    rw [this] at hw
    simp at hw
  apply List.ne_nil_of_mem (a := trimStr part)
  rw [List.mem_filter]
  refine ⟨List.mem_map_of_mem _ hp1, ?_⟩
  simpa [List.isEmpty_iff] using htrim

theorem hasSub_mem (pat s : Str) (h : hasSub pat s = true) (c : Char)
    (hc : c ∈ pat) : c ∈ s := by
  induction s with
  | nil =>
    rw [hasSub] at h
    rw [List.isEmpty_iff.mp h] at hc
    simp at hc
  | cons x rest ih =>
    rw [hasSub, Bool.or_eq_true] at h
    rcases h with h | h
    · have hp : pat <+: (x :: rest) := List.isPrefixOf_iff_prefix.mp h
      exact hp.sublist.mem hc
    · exact List.mem_cons_of_mem _ (ih h)

/-! ### Claim C5 -/

/-- C5 counterexample: the blob "hello" contains no share-link and is not
base64 of share-links (no "://" appears in the text or after a base64
attempt), yet the extractor returns the non-empty sequence ["hello"], not
the empty sequence the claim asserts. -/
theorem c5_counterexample :
    hasSub schemeMarker (trimStr (utf8DecodeLossy c5Blob)) = false ∧
    extractSubscriptionLines c5Blob = [ofString "hello"] ∧
    extractSubscriptionLines c5Blob ≠ [] := by
  exact ⟨by decide, by decide, by decide⟩

/-- C5 (amended): the extractor never errors (it is a total function of the
blob) and returns the empty sequence exactly when the lossily-decoded blob
trims to nothing; any other blob — including pure garbage — yields its
non-empty trimmed lines. -/
theorem c5_amended_extract_empty_iff (bytes : List Nat) :
    extractSubscriptionLines bytes = [] ↔ trimStr (utf8DecodeLossy bytes) = [] := by
  constructor
  · intro h
    by_contra hraw
    apply absurd h
    simp only [extractSubscriptionLines]
    set raw := trimStr (utf8DecodeLossy bytes) with hrawdef
    match hfind :
      (raw :: (if hasSub schemeMarker raw then []
        else
          match decodeBase64 raw with
          | some decoded =>
            match utf8DecodeStrict decoded with
            | some s => [s]
            | none => []
          | none => [])).find? (fun c => hasSub schemeMarker c) with
    | some t =>
      have hscheme : hasSub schemeMarker t = true := List.find?_some hfind
      have hcolon : ':' ∈ t := hasSub_mem _ _ hscheme ':' (by decide)
      simp only [Option.getD_some]
      exact linesOf_ne_nil t ':' hcolon (by decide)
    | none =>
      simp only [Option.getD_none]
      have hex : ∃ c ∈ utf8DecodeLossy bytes, isWsChar c = false := by
        by_contra hall
        push_neg at hall
        apply hraw
        rw [hrawdef, trimStr_eq_nil_iff]
        intro c hc
        have := hall c hc
        simpa using this
      obtain ⟨c, hc1, hc2⟩ := hex
      exact linesOf_ne_nil raw c (mem_trimStr_of_not_ws _ c hc1 hc2) hc2
  · intro h
    simp only [extractSubscriptionLines, h]
    decide

/-! ### Claim C6 -/

theorem foldl_decode_aux (lines : List Str) (acc : List ProxySpec) :
    lines.foldl
      (fun acc line =>
        match parseSsUrl line with
        | some p => acc ++ [p]
        | none =>
          match parseVmessUrl line with
          | some p => acc ++ [p]
          | none =>
            match parseVlessUrl line with
            | some p => acc ++ [p]
            | none =>
              match parseTrojanUrl line with
              | some p => acc ++ [p]
              | none => acc)
      acc
    = acc ++ lines.filterMap decodeShareLine := by
  induction lines generalizing acc with
  | nil => simp
  | cons line rest ih =>
    rcases h1 : parseSsUrl line with _ | p1
    · rcases h2 : parseVmessUrl line with _ | p2
      · rcases h3 : parseVlessUrl line with _ | p3
        · rcases h4 : parseTrojanUrl line with _ | p4
          · simp [List.foldl_cons, List.filterMap_cons, decodeShareLine, h1, h2, h3, h4,
              Option.orElse, ih]
          · simp [List.foldl_cons, List.filterMap_cons, decodeShareLine, h1, h2, h3, h4,
              Option.orElse, ih]
        · simp [List.foldl_cons, List.filterMap_cons, decodeShareLine, h1, h2, h3,
            Option.orElse, ih]
      · simp [List.foldl_cons, List.filterMap_cons, decodeShareLine, h1, h2,
          Option.orElse, ih]
    · simp [List.foldl_cons, List.filterMap_cons, decodeShareLine, h1,
        Option.orElse, ih]

theorem parseRawSubscription_eq_filterMap (bytes : List Nat) :
    parseRawSubscription bytes =
      (extractSubscriptionLines bytes).filterMap decodeShareLine := by
  rw [parseRawSubscription]
  simpa using foldl_decode_aux (extractSubscriptionLines bytes) []

/-- C6: with the base-config read succeeding (the read is collaborator
I/O), conversion fails exactly when no extracted line decodes under any of
the four decoders; and whenever at least one line decodes, the conversion
succeeds with the record list being precisely the decodable lines in order
— undecodable lines are dropped silently, raising nothing. -/
theorem c6_convert_error_iff (raw : List Nat) (b : Option Yaml) :
    ((∃ e, convertRawSubscriptionToConfig raw (.ok b) = .error e) ↔
      ∀ line ∈ extractSubscriptionLines raw, decodeShareLine line = none)
    ∧ ((∃ line ∈ extractSubscriptionLines raw, decodeShareLine line ≠ none) →
      convertRawSubscriptionToConfig raw (.ok b) =
        .ok (applyProxiesToConfig b
            ((extractSubscriptionLines raw).filterMap decodeShareLine),
          ((extractSubscriptionLines raw).filterMap decodeShareLine).length)) := by
  have hP := parseRawSubscription_eq_filterMap raw
  by_cases hemp : (parseRawSubscription raw).isEmpty = true
  · have hnil : (extractSubscriptionLines raw).filterMap decodeShareLine = [] := by
      rw [← hP]
      exact List.isEmpty_iff.mp hemp
    have hall : ∀ line ∈ extractSubscriptionLines raw, decodeShareLine line = none :=
      List.filterMap_eq_nil_iff.mp hnil
    have hconv : convertRawSubscriptionToConfig raw (.ok b) =
        .error "Unsupported raw subscription format" := by
      simp only [convertRawSubscriptionToConfig, hemp, if_true]
    refine ⟨⟨fun _ => hall, fun _ => ⟨_, hconv⟩⟩, ?_⟩
    rintro ⟨line, hl, hd⟩
    exact absurd (hall line hl) hd
  · have hconv : convertRawSubscriptionToConfig raw (.ok b) =
        .ok (applyProxiesToConfig b (parseRawSubscription raw),
          (parseRawSubscription raw).length) := by
      simp only [convertRawSubscriptionToConfig, hemp, Bool.false_eq_true, if_false]
    refine ⟨⟨?_, ?_⟩, ?_⟩
    · rintro ⟨e, he⟩
      rw [hconv] at he
      exact absurd he (by simp)
    · intro hall
      have hnil : (extractSubscriptionLines raw).filterMap decodeShareLine = [] :=
        List.filterMap_eq_nil_iff.mpr hall
      rw [← hP] at hnil
      exact absurd (List.isEmpty_iff.mpr hnil) hemp
    · intro _
      rw [hconv, hP]

/-- Witness for c6_convert_error_iff at a concrete subscription: one
decodable Shadowsocks line, one garbage line. -/
theorem c6_witness :
    (∃ line ∈ extractSubscriptionLines c6Raw, decodeShareLine line ≠ none) ∧
    convertRawSubscriptionToConfig c6Raw (.ok (some exBase)) =
      .ok (applyProxiesToConfig (some exBase)
          ((extractSubscriptionLines c6Raw).filterMap decodeShareLine),
        ((extractSubscriptionLines c6Raw).filterMap decodeShareLine).length) :=
  ⟨by decide, (c6_convert_error_iff c6Raw (some exBase)).2 (by decide)⟩

/-! ### Claims C7 and C10 -/

theorem mapGet_eq_none (m : List (Yaml × Yaml)) (k : Yaml)
    (h : ∀ e ∈ m, e.1 ≠ k) : mapGet m k = none := by
  induction m with
  | nil => rfl
  | cons e rest ih =>
    rw [mapGet, if_neg (h e (List.mem_cons_self e rest))]
    exact ih (fun e2 he2 => h e2 (List.mem_cons_of_mem _ he2))

theorem mapGet_append_right (a b : List (Yaml × Yaml)) (k : Yaml)
    (h : ∀ e ∈ a, e.1 ≠ k) : mapGet (a ++ b) k = mapGet b k := by
  induction a with
  | nil => rfl
  | cons e rest ih =>
    rw [List.cons_append, mapGet, if_neg (h e (List.mem_cons_self e rest))]
    exact ih (fun e2 he2 => h e2 (List.mem_cons_of_mem _ he2))

theorem mapGet_append_left (a b : List (Yaml × Yaml)) (k : Yaml) (v : Yaml)
    (h : mapGet a k = some v) : mapGet (a ++ b) k = some v := by
  induction a with
  | nil => simp [mapGet] at h
  | cons e rest ih =>
    by_cases he : e.1 = k
    · rw [mapGet, if_pos he] at h
      rw [List.cons_append, mapGet, if_pos he]
      exact h
    · rw [mapGet, if_neg he] at h
      rw [List.cons_append, mapGet, if_neg he]
      exact ih h

/-- C7: decoding the claimed VMess payload yields a record with server
1.2.3.4, port 443, network ws, a ws-opts block holding path /p and a Host
header h.example, and no tls key (the servername h.example is also set,
from the host fallback); and for every payload on which the decoder
succeeds, the tls key is present — always as true — exactly when the
payload's tls field yields a non-empty string other than "none". -/
theorem c7_vmess_tls :
    vmessFromJson c7Doc = some ⟨"1.2.3.4:443", c7Expected⟩ ∧
    mapGet c7Expected (.str "tls") = none ∧
    ∀ (doc : JsonDoc) (spec : ProxySpec), vmessFromJson doc = some spec →
      (mapGet spec.map (.str "tls") = some (.bool true) ↔
        ∃ s, getStr doc "tls" = some s ∧ s ≠ "" ∧ s ≠ "none") := by
  refine ⟨by decide, by decide, ?_⟩
  intro doc spec h
  match hadd : getStr doc "add" with
  | none => rw [vmessFromJson, hadd] at h; exact absurd h (by simp)
  | some server =>
  match hport : (getStr doc "port").bind (fun s => parseU16 (ofString s)) with
  | none => rw [vmessFromJson, hadd, hport] at h; exact absurd h (by simp)
  | some port =>
  match hid : getStr doc "id" with
  | none => rw [vmessFromJson, hadd, hport, hid] at h; exact absurd h (by simp)
  | some uuid =>
  simp only [vmessFromJson, hadd, hport, hid, Option.some.injEq] at h
  subst h
  simp only [List.append_assoc]
  rw [mapGet_append_right _ _ _ (by simp)]
  rw [mapGet_append_right _ _ _ (by
    cases hA : (getStr doc "aid").bind (fun s => parseU16 (ofString s)) with
    | none => simp
    | some a => simp)]
  rw [mapGet_append_right _ _ _ (by
    cases hN : Option.filter (fun n => !n.isEmpty)
        ((getStr doc "net").orElse fun x => getStr doc "network") with
    | none => simp
    | some n => simp)]
  have hskipS : ∀ e ∈ (match (getStr doc "sni").orElse fun x => getStr doc "host" with
      | some s => [((Yaml.str "servername"), Yaml.str s)]
      | none => ([] : List (Yaml × Yaml))), e.1 ≠ Yaml.str "tls" := by
    cases hS : (getStr doc "sni").orElse fun x => getStr doc "host" with
    | none => simp
    | some v => simp
  have hskipAL : ∀ e ∈ (match getStr doc "alpn" with
      | some a =>
        if (!(alpnList a).isEmpty) = true then
          [((Yaml.str "alpn"), Yaml.seq (alpnList a))]
        else []
      | none => ([] : List (Yaml × Yaml))), e.1 ≠ Yaml.str "tls" := by
    cases hAL : getStr doc "alpn" with
    | none => simp
    | some a => split <;> simp
  cases hts : getStr doc "tls" with
  | none =>
    simp only [Option.getD_none]
    have hcondF : (!("" : String).isEmpty && decide (("" : String) ≠ "none")) = false := by
      decide
    simp only [hcondF, Bool.false_eq_true, if_false, List.nil_append]
    rw [mapGet_append_right _ _ _ hskipS]
    rw [mapGet_append_right _ _ _ hskipAL]
    rw [mapGet_eq_none _ _ (by
      intro e he
      split at he
      · split at he
        · simp_all
        · simp_all
      · split at he
        · split at he
          · simp_all
          · simp_all
        · simp_all)]
    simp
  | some s =>
    simp only [Option.getD_some]
    by_cases hcond : (!s.isEmpty && decide (s ≠ "none")) = true
    · simp only [hcond, if_true, List.cons_append, List.singleton_append]
      rw [mapGet]
      simp only [if_pos rfl]
      have hparts : s.isEmpty = false ∧ s ≠ "none" := by
        simpa using hcond
      have hne : s ≠ "" := by
        intro hc
        rw [hc] at hparts
        exact absurd hparts.1 (by decide)
      constructor
      · intro _
        exact ⟨s, rfl, hne, hparts.2⟩
      · intro _
        rfl
    · have hcondF : (!s.isEmpty && decide (s ≠ "none")) = false := by
        simpa using hcond
      simp only [hcondF, Bool.false_eq_true, if_false, List.nil_append]
      rw [mapGet_append_right _ _ _ hskipS]
      rw [mapGet_append_right _ _ _ hskipAL]
      rw [mapGet_eq_none _ _ (by
        intro e he
        split at he
        · split at he
          · simp_all
          · simp_all
        · split at he
          · split at he
            · simp_all
            · simp_all
          · simp_all)]
      constructor
      · intro hc
        exact absurd hc (by simp)
      · rintro ⟨s2, hs2, h1, h2⟩
        injection hs2 with hs2
        subst hs2
        exfalso
        apply hcond
        simp only [Bool.and_eq_true, Bool.not_eq_true', decide_eq_true_eq]
        refine ⟨?_, h2⟩
        by_contra hb
        have hbe : s.isEmpty = true := by simpa using hb
        exact h1 ((String.isEmpty_iff s).mp hbe)

/-- Witness for the universal part of c7_vmess_tls at a payload with a
meaningful tls field. -/
theorem c7_witness :
    vmessFromJson c7DocTls = some c7SpecTls ∧
    (mapGet c7SpecTls.map (.str "tls") = some (.bool true) ↔
      ∃ s, getStr c7DocTls "tls" = some s ∧ s ≠ "" ∧ s ≠ "none") :=
  ⟨by decide, c7_vmess_tls.2.2 c7DocTls c7SpecTls (by decide)⟩

/-- C10: when the decoder succeeds on a payload without a (string) sni
field but with a non-empty host field, the record's servername is the host
value; when an sni string is present, it takes precedence for servername
regardless of host. -/
theorem c10_vmess_servername (doc : JsonDoc) (spec : ProxySpec)
    (h : vmessFromJson doc = some spec) :
    (∀ hv : String, getStr doc "sni" = none → getStr doc "host" = some hv → hv ≠ "" →
      mapGet spec.map (.str "servername") = some (.str hv)) ∧
    (∀ s : String, getStr doc "sni" = some s →
      mapGet spec.map (.str "servername") = some (.str s)) := by
  match hadd : getStr doc "add" with
  | none => rw [vmessFromJson, hadd] at h; exact absurd h (by simp)
  | some server =>
  match hport : (getStr doc "port").bind (fun s => parseU16 (ofString s)) with
  | none => rw [vmessFromJson, hadd, hport] at h; exact absurd h (by simp)
  | some port =>
  match hid : getStr doc "id" with
  | none => rw [vmessFromJson, hadd, hport, hid] at h; exact absurd h (by simp)
  | some uuid =>
  simp only [vmessFromJson, hadd, hport, hid, Option.some.injEq] at h
  subst h
  simp only [List.append_assoc]
  rw [mapGet_append_right _ _ _ (by simp)]
  rw [mapGet_append_right _ _ _ (by
    cases hA : (getStr doc "aid").bind (fun s => parseU16 (ofString s)) with
    | none => simp
    | some a => simp)]
  rw [mapGet_append_right _ _ _ (by
    cases hN : Option.filter (fun n => !n.isEmpty)
        ((getStr doc "net").orElse fun x => getStr doc "network") with
    | none => simp
    | some n => simp)]
  rw [mapGet_append_right _ _ _ (by split <;> simp)]
  constructor
  · intro hv hsn hh _
    simp only [hsn, hh]
    simp only [Option.orElse, Option.getD_some]
    simp [mapGet]
  · intro s hs
    simp only [hs]
    simp only [Option.orElse]
    simp [mapGet]

/-- Witness for c10_vmess_servername: the claimed payload has a host and no
sni, and its record's servername is the host value. -/
theorem c10_witness :
    vmessFromJson c7Doc = some ⟨"1.2.3.4:443", c7Expected⟩ ∧
    mapGet c7Expected (.str "servername") = some (.str "h.example") := by
  refine ⟨by decide, ?_⟩
  exact (c10_vmess_servername c7Doc ⟨"1.2.3.4:443", c7Expected⟩ (by decide)).1
    "h.example" (by decide) (by decide) (by decide)

end Clashctl
